import Mathlib

/-!
Verification of the adaptive-LOD planet renderer (omniverse).

This file gives a shallow embedding of the parts of the source that the
claims are about, and proves or refutes each claim:

* `src/planet/geometry_provider.rs` — patch locations and splitting;
* `src/planet/renderer/mod.rs` — split distances, the LOD selector
  (`LODSelectHelper`), residency (`ensure_resident_children`,
  `request_node`, `remove_face`, `merge`) and pending-request bookkeeping;
* `src/planet/async_geometry_provider.rs` — request priorities and the
  worker dequeue step;
* `src/id_arena.rs` and `src/planet/renderer/node_backing.rs` — slot
  arena;
* `src/planet/renderer/horizon_culling.rs` — the horizon cone;
* `src/bin/diamond_square.rs` — cube-face coordinate traversal.

Floating point (`f64`) arithmetic is modelled over `ℚ` where the code
computes with exact dyadic values, and over `ℝ` where square roots are
involved.  Machine-integer arithmetic (`i32`, `usize`) is modelled over
`ℤ` and `ℕ`; the Rust `%` and `/` on `i32` are `Int.tmod` and `Int.tdiv`.
-/

namespace Omniverse

/-- The six cube faces, `src/planet/face.rs`. -/
inductive Face where
  | Front
  | Right
  | Back
  | Left
  | Top
  | Bottom
deriving DecidableEq, Repr

/-- Quadrants of a quad tree node, `src/planet/quad_tree.rs` (`Child`). -/
inductive Child where
  | TopLeft
  | TopRight
  | BottomLeft
  | BottomRight
deriving DecidableEq, Repr

/-- `Child::index`, `src/planet/quad_tree.rs`. -/
def Child.index : Child → Nat
  | .TopLeft => 0
  | .TopRight => 1
  | .BottomLeft => 2
  | .BottomRight => 3

/-- `Child::values()` iteration order, `src/planet/quad_tree.rs`. -/
def childValues : List Child :=
  [Child.TopLeft, Child.TopRight, Child.BottomLeft, Child.BottomRight]

/-- `PatchLocation`, `src/planet/geometry_provider.rs`.  The `f64` offset
and size are modelled as rationals (all values reachable from the unit
root by halving are dyadic, hence exact in `f64`). -/
structure PatchLocation where
  face : Face
  offsetX : ℚ
  offsetY : ℚ
  size : ℚ
  lod_level : Nat
deriving DecidableEq, Repr

/-- `PatchLocation::split`, `src/planet/geometry_provider.rs`. -/
def PatchLocation.split (l : PatchLocation) (index : Child) : PatchLocation :=
  let size := l.size * (1/2)
  match index with
  | .TopLeft =>
      { face := l.face, offsetX := l.offsetX, offsetY := l.offsetY
        size := size, lod_level := l.lod_level + 1 }
  | .TopRight =>
      { face := l.face, offsetX := l.offsetX + size, offsetY := l.offsetY
        size := size, lod_level := l.lod_level + 1 }
  | .BottomLeft =>
      { face := l.face, offsetX := l.offsetX, offsetY := l.offsetY + size
        size := size, lod_level := l.lod_level + 1 }
  | .BottomRight =>
      { face := l.face, offsetX := l.offsetX + size, offsetY := l.offsetY + size
        size := size, lod_level := l.lod_level + 1 }

/-- Membership of a point in the closed square covered by a location. -/
def PatchLocation.inSquare (l : PatchLocation) (p : ℚ × ℚ) : Prop :=
  l.offsetX ≤ p.1 ∧ p.1 ≤ l.offsetX + l.size ∧
  l.offsetY ≤ p.2 ∧ p.2 ≤ l.offsetY + l.size

/-- Membership of a point in the open interior of a location's square. -/
def PatchLocation.inInterior (l : PatchLocation) (p : ℚ × ℚ) : Prop :=
  l.offsetX < p.1 ∧ p.1 < l.offsetX + l.size ∧
  l.offsetY < p.2 ∧ p.2 < l.offsetY + l.size

/-- The loop body of the `split_distances` construction in
`Renderer::new`, `src/planet/renderer/mod.rs`: starting from
`last_value`, push `last_value * 2` and double `last_value`, `n` times.
(`split_amount` is the constant `2.0` in the source.) -/
def splitDistancesLoop : Nat → ℚ → List ℚ → List ℚ
  | 0, _, acc => acc
  | n + 1, last_value, acc =>
      splitDistancesLoop n (last_value * 2) (acc ++ [last_value * 2])

/-- `split_distances` as built in `Renderer::new`,
`src/planet/renderer/mod.rs`: push `1.0`, run the loop `max_lod_level`
times with `last_value` starting at `2.0`, then reverse. -/
def splitDistances (max_lod_level : Nat) : List ℚ :=
  (splitDistancesLoop max_lod_level 2 [1]).reverse

/-- The list of values pushed by `splitDistancesLoop` (helper). -/
def splitDistancesPushed : Nat → ℚ → List ℚ
  | 0, _ => []
  | n + 1, last_value => last_value * 2 :: splitDistancesPushed n (last_value * 2)

/-- Closed form of `splitDistances` (helper): the reversed pushed values
followed by the initial `1`. -/
def splitDistancesSpec : Nat → List ℚ
  | 0 => [1]
  | n + 1 => 2 ^ (n + 2) :: splitDistancesSpec n

/-- The priority value written into a Pending node's token on each
residency pass:
`location.lod_level | if parent_in_frustum { 512 } else { 0 }`
(`ensure_resident_children`, `src/planet/renderer/mod.rs`). -/
def pendingPriority (lod_level : Nat) (parent_in_frustum : Bool) : Nat :=
  lod_level ||| (if parent_in_frustum then 512 else 0)

/-- A queued request as a worker sees it at dequeue time: its id and the
value its priority token holds when the worker reads it
(`ThreadpoolGeometryProvider`, `src/planet/async_geometry_provider.rs`). -/
structure Request where
  id : Nat
  priority : Nat
deriving DecidableEq, Repr

/-- One worker dequeue step, `src/planet/async_geometry_provider.rs`:
`retain` the requests with nonzero priority, stable-sort the queue by
priority ascending (`sort_by`), and `Vec::pop` the last element.
Returns the popped request (`none` when everything was cancelled) and
the remaining queue. -/
def dequeue (queue : List Request) : Option Request × List Request :=
  let retained := queue.filter (fun r => r.priority != 0)
  let sorted := retained.mergeSort (fun a b => a.priority ≤ b.priority)
  (sorted.getLast?, sorted.dropLast)

/-- `MAX_PATCH_COUNT`, `src/planet/constants.rs`. -/
def MAX_PATCH_COUNT : Nat := 2048

/-- `SimpleIdArena`, `src/id_arena.rs`.  `free` models the `Vec` free
list; `Vec::push` appends and `Vec::pop` removes the last element.  The
residency pass is single-threaded, so `try_lock` always succeeds. -/
structure SimpleIdArena where
  counter : Nat
  free : List Nat
  capacity : Nat
deriving DecidableEq, Repr

/-- `SimpleIdArena::with_capacity`, `src/id_arena.rs`. -/
def SimpleIdArena.with_capacity (capacity : Nat) : SimpleIdArena :=
  { counter := 0, free := [], capacity := capacity }

/-- `SimpleIdArena::acquire`, `src/id_arena.rs`: pop the free list, or
else take a fresh id from the counter; when the counter has reached
capacity the counter is restored and the acquire fails with `none`. -/
def SimpleIdArena.acquire (a : SimpleIdArena) : Option Nat × SimpleIdArena :=
  match a.free.getLast? with
  | some id => (some id, { a with free := a.free.dropLast })
  | none =>
      if a.capacity ≤ a.counter then (none, a)
      else (some a.counter, { a with counter := a.counter + 1 })

/-- `SimpleIdArena::release`, `src/id_arena.rs`. -/
def SimpleIdArena.release (a : SimpleIdArena) (id : Nat) : SimpleIdArena :=
  { a with free := a.free ++ [id] }

/-- `NodeBacking::acquire`, `src/planet/renderer/node_backing.rs`: the
source unwraps the arena result with
`expect("There are no more node id's available.")`; the `none` value here
is exactly that panic (the process aborts). -/
def nodeBackingAcquire (a : SimpleIdArena) : Option (Nat × SimpleIdArena) :=
  match a.acquire with
  | (some id, a2) => some (id, a2)
  | (none, _) => none

/-- `CubeCoord`, `src/bin/diamond_square.rs`; `i32` is modelled as `ℤ`. -/
structure CubeCoord where
  x : ℤ
  y : ℤ
  face : Face
deriving DecidableEq, Repr

/-- `face_to_primitive`, `src/bin/diamond_square.rs` (`u8` result, used
as `i32`). -/
def face_to_primitive : Face → ℤ
  | .Left => 3
  | .Right => 1
  | .Top => 4
  | .Bottom => 5
  | .Front => 0
  | .Back => 2

/-- `primitive_to_face`, `src/bin/diamond_square.rs`.  The source is
unreachable outside the six listed values; every call below stays inside
them, and the catch-all case returns `Front` only to keep the function
total. -/
def primitive_to_face (face : ℤ) : Face :=
  if face = 3 then .Left
  else if face = 1 then .Right
  else if face = 4 then .Top
  else if face = 5 then .Bottom
  else if face = 0 then .Front
  else if face = 2 then .Back
  else .Front

/-- The four faces of the equatorial ring, handled by the shared arm of
the `match` in `CubeCoord::add_dx`. -/
def Face.equatorial : Face → Bool
  | .Left | .Right | .Front | .Back => true
  | .Top | .Bottom => false

/-- `CubeCoord::add_dx`, `src/bin/diamond_square.rs`.  Rust `i32`
division and remainder truncate toward zero: `Int.tdiv` / `Int.tmod`. -/
def CubeCoord.add_dx (c : CubeCoord) (dx size : ℤ) : CubeCoord :=
  let x_new := c.x + dx
  if 0 ≤ x_new ∧ x_new < size then
    { x := x_new, y := c.y, face := c.face }
  else
    match c.face with
    | .Left | .Right | .Front | .Back =>
        let face_idx := face_to_primitive c.face
        { x := (x_new + size).tmod size
          y := c.y
          face := primitive_to_face (((x_new + 4 * size).tdiv size + face_idx).tmod 4) }
    | .Top =>
        if x_new < 0 then
          { x := c.y, y := -x_new, face := .Left }
        else
          { x := size - c.y - 1, y := x_new - size, face := .Right }
    | .Bottom =>
        if x_new < 0 then
          { x := size - c.y - 1, y := size + x_new, face := .Left }
        else
          { x := c.y, y := 2 * size - x_new - 1, face := .Right }

/-- `CubeCoord::add_dy`, `src/bin/diamond_square.rs`. -/
def CubeCoord.add_dy (c : CubeCoord) (dy size : ℤ) : CubeCoord :=
  let y_new := c.y + dy
  if 0 ≤ y_new ∧ y_new < size then
    { x := c.x, y := y_new, face := c.face }
  else
    match c.face with
    | .Front =>
        if y_new < 0 then
          { x := c.x, y := size + y_new, face := .Top }
        else
          { x := c.x, y := y_new - size, face := .Bottom }
    | .Right =>
        if y_new < 0 then
          { x := size + y_new, y := size - c.x - 1, face := .Top }
        else
          { x := 2 * size - y_new - 1, y := c.x, face := .Bottom }
    | .Back =>
        if y_new < 0 then
          { x := size - c.x - 1, y := -y_new, face := .Top }
        else
          { x := size - c.x - 1, y := 2 * size - y_new - 1, face := .Bottom }
    | .Left =>
        if y_new < 0 then
          { x := -y_new, y := c.x, face := .Top }
        else
          { x := y_new - size, y := size - c.x - 1, face := .Bottom }
    | .Top =>
        if y_new < 0 then
          { x := size - c.x - 1, y := -y_new, face := .Back }
        else
          { x := c.x, y := y_new - size, face := .Front }
    | .Bottom =>
        if y_new < 0 then
          { x := c.x, y := size + y_new, face := .Front }
        else
          { x := size - c.x - 1, y := 2 * size - y_new - 1, face := .Back }

/-- Classification outcomes, `src/culling.rs` (`Containment`). -/
inductive Containment where
  | Outside
  | Inside
  | Intersects
deriving DecidableEq, Repr

/-- A 3-vector over the reals, modelling nalgebra `Vector3<f64>` /
`Point3<f64>` exactly. -/
structure V3 where
  x : ℝ
  y : ℝ
  z : ℝ

/-- Componentwise difference. -/
def V3.sub (a b : V3) : V3 :=
  ⟨a.x - b.x, a.y - b.y, a.z - b.z⟩

/-- Scalar multiple. -/
def V3.smul (t : ℝ) (a : V3) : V3 :=
  ⟨t * a.x, t * a.y, t * a.z⟩

/-- Componentwise negation. -/
def V3.neg (a : V3) : V3 :=
  ⟨-a.x, -a.y, -a.z⟩

/-- Euclidean inner product. -/
def V3.dot (a b : V3) : ℝ :=
  a.x * b.x + a.y * b.y + a.z * b.z

/-- Squared Euclidean norm. -/
def V3.normSq (a : V3) : ℝ :=
  a.dot a

/-- Euclidean norm (nalgebra `norm()`). -/
noncomputable def V3.norm (a : V3) : ℝ :=
  Real.sqrt a.normSq

/-- nalgebra `normalize()`: the vector divided by its norm. -/
noncomputable def V3.normalize (a : V3) : V3 :=
  V3.smul a.norm⁻¹ a

/-- The horizon-culling cone, `src/planet/renderer/horizon_culling.rs`. -/
structure Cone where
  origin : V3
  direction : V3
  near_distance : ℝ
  cos_angle : ℝ

/-- `Cone::new`, `src/planet/renderer/horizon_culling.rs`. -/
noncomputable def Cone.new (camera_position : V3) (planet_radius : ℝ) : Cone :=
  let distance_to_center := camera_position.norm
  let radius_squared := planet_radius * planet_radius
  let distance_from_center_to_plane := radius_squared / distance_to_center
  let near_distance := distance_to_center - distance_from_center_to_plane
  let cos_angle := near_distance /
    Real.sqrt (distance_to_center * distance_to_center - radius_squared)
  { origin := camera_position
    direction := (camera_position.normalize).neg
    near_distance := near_distance
    cos_angle := cos_angle }

/-- The condition under which `Classify<Point3<N>> for Cone` answers
`Inside`, `src/planet/renderer/horizon_culling.rs`. -/
def Cone.insideCondition (cone : Cone) (shape : V3) : Prop :=
  let position_camera := shape.sub cone.origin
  let point_cos_angle := cone.direction.dot position_camera
  point_cos_angle > cone.near_distance ∧
  point_cos_angle / position_camera.norm > cone.cos_angle

open Classical in
/-- `Classify<Point3<N>>::classify for Cone`,
`src/planet/renderer/horizon_culling.rs`: `Inside` when both the plane
test and the angle test pass, `Outside` otherwise. -/
noncomputable def Cone.classifyPoint (cone : Cone) (shape : V3) : Containment :=
  if cone.insideCondition shape then Containment.Inside else Containment.Outside

/-- A quad tree, `src/planet/quad_tree.rs`: a content value plus either
no children or exactly four. -/
inductive QuadTree (α : Type) where
  | leaf (content : α)
  | branch (content : α) (tl tr bl br : QuadTree α)
deriving DecidableEq, Repr

/-- The `content` field of a quad tree node. -/
def QuadTree.content {α : Type} : QuadTree α → α
  | .leaf c => c
  | .branch c _ _ _ _ => c

/-- `QuadTree::has_children`. -/
def QuadTree.has_children {α : Type} : QuadTree α → Bool
  | .leaf _ => false
  | .branch _ _ _ _ _ => true

/-- A node as the LOD selector sees it (`Node`,
`src/planet/renderer/node.rs`): pending, or resident with geometry.
The geometry record (GPU slot, AABB, origin, transform) is abstracted to
an identifier; the geometric tests on the AABB become oracle functions
of this identifier in `LODEnv`. -/
inductive SelNode where
  | pending
  | withGeometry (g : Nat)
deriving DecidableEq, Repr

/-- The per-frame context of `LODSelectHelper`
(`src/planet/renderer/mod.rs`): the frustum classification of a node's
bounding box, the horizon-cone containment test, and the point-AABB
distance test `in_range` against a given split distance are oracles on
the geometry identifier; `splitDistances` is the vector from
`Renderer::new`. -/
structure LODEnv where
  frustumClassify : Nat → Containment
  coneContains : Nat → Bool
  inRange : Nat → ℚ → Bool
  splitDistances : List ℚ

/-- `LODSelectResult`, `src/planet/renderer/mod.rs`. -/
inductive LODSelectResult where
  | Undefined
  | OutOfFrustum
  | OutOfRange
  | Selected
  | Pending
deriving DecidableEq, Repr

/-- `LODSelectResult::is_not_selected`, `src/planet/renderer/mod.rs`.
Note that `OutOfFrustum` answers `false` here. -/
def LODSelectResult.is_not_selected : LODSelectResult → Bool
  | .Undefined => true
  | .OutOfFrustum => false
  | .OutOfRange => true
  | .Selected => false
  | .Pending => true

/-- `VisibleNodePart`, `src/planet/renderer/mod.rs`. -/
inductive VisibleNodePart where
  | Whole
  | Child (child : Child)
deriving DecidableEq, Repr

/-- A `VisibleNode` as packed by `LODSelectHelper::add`: geometry id,
part, morph range, and lod level (the camera-relative transform is not
modelled). -/
structure VisibleNode where
  geom : Nat
  part : VisibleNodePart
  morph_range : ℚ × ℚ
  lod_level : Nat
deriving DecidableEq, Repr

/-- `LODSelectHelper::add`, `src/planet/renderer/mod.rs`.
`current_split_depth` is `split_distances.get(lod).unwrap_or(&0.0)`;
`previous_split_depth` is `split_distances.get(lod.wrapping_sub(1))
.unwrap_or(&current_split_depth)` — at level 0 `wrapping_sub(1)` wraps to
`usize::MAX`, whose `get` is `None`, so it falls back to `current`. -/
def addVisible (sd : List ℚ) (g : Nat) (loc : PatchLocation)
    (part : VisibleNodePart) : VisibleNode :=
  let current_split_depth := (sd.get? loc.lod_level).getD 0
  let previous_split_depth :=
    if loc.lod_level = 0 then current_split_depth
    else (sd.get? (loc.lod_level - 1)).getD current_split_depth
  let split_depth := current_split_depth +
    (previous_split_depth - current_split_depth) * (9 / 10)
  { geom := g, part := part
    morph_range := (split_depth, previous_split_depth)
    lod_level := loc.lod_level }

/-- The morph range emitted for a contribution at a given level
(closed form of the computation in `LODSelectHelper::add`). -/
def morphRangeSpec (sd : List ℚ) (lod_level : Nat) : ℚ × ℚ :=
  let current := (sd.get? lod_level).getD 0
  let previous :=
    if lod_level = 0 then current else (sd.get? (lod_level - 1)).getD current
  (current + (previous - current) * (9 / 10), previous)

/-- Outcome of the early checks of `LODSelectHelper::recurse` for a node
with geometry: culled, out of its parent LOD range, to be split into
children (recording whether it is completely inside the frustum), or to
be drawn whole. -/
inductive GeomPhase where
  | outOfFrustum
  | outOfRange
  | splitPhase (completely_in_frustum : Bool)
  | wholePhase
deriving DecidableEq, Repr

/-- The early checks of `LODSelectHelper::recurse`
(`src/planet/renderer/mod.rs`), in source order: frustum classification
(skipped when the parent was completely inside), horizon cone, the
parent-range check against `split_distances[lod - 1]` (only for
`lod > 0`; the source indexes directly and is in bounds on every
reachable call, totalised here with `.getD 0`), and the split-range
check against `split_distances[lod]`. -/
def classifyGeomNode (env : LODEnv) (g : Nat) (loc : PatchLocation)
    (parent_completely_in_frustum : Bool) : GeomPhase :=
  let frustum_containment :=
    if parent_completely_in_frustum then Containment.Inside
    else env.frustumClassify g
  if frustum_containment = Containment.Outside then .outOfFrustum
  else if env.coneContains g then .outOfFrustum
  else if 0 < loc.lod_level ∧
      env.inRange g ((env.splitDistances.get? (loc.lod_level - 1)).getD 0) = false
    then .outOfRange
  else if loc.lod_level < env.splitDistances.length ∧
      env.inRange g ((env.splitDistances.get? loc.lod_level).getD 0) = true
    then .splitPhase (frustum_containment = Containment.Inside)
  else .wholePhase

/-- `LODSelectHelper::recurse`, `src/planet/renderer/mod.rs`, returning
the list of contributions pushed (in push order) together with the
`LODSelectResult`.  A `Pending` node returns `Pending`; a node with
geometry runs the checks of `classifyGeomNode`; in the split phase the
four children are visited (children absent stay `Undefined`), then
either the whole node is emitted (when every child result
`is_not_selected`) or one partial per not-selected child is emitted. -/
def recurse (env : LODEnv) :
    QuadTree SelNode → PatchLocation → Bool → List VisibleNode × LODSelectResult
  | .leaf .pending, _, _ => ([], .Pending)
  | .branch .pending _ _ _ _, _, _ => ([], .Pending)
  | .leaf (.withGeometry g), loc, pcif =>
      match classifyGeomNode env g loc pcif with
      | .outOfFrustum => ([], .OutOfFrustum)
      | .outOfRange => ([], .OutOfRange)
      | .splitPhase _ =>
          -- no children: all four entries of `children_selection_results`
          -- stay `Undefined`, hence all not selected: the whole node is added
          ([addVisible env.splitDistances g loc .Whole], .Selected)
      | .wholePhase => ([addVisible env.splitDistances g loc .Whole], .Selected)
  | .branch (.withGeometry g) tl tr bl br, loc, pcif =>
      match classifyGeomNode env g loc pcif with
      | .outOfFrustum => ([], .OutOfFrustum)
      | .outOfRange => ([], .OutOfRange)
      | .splitPhase ci =>
          let rtl := recurse env tl (loc.split .TopLeft) ci
          let rtr := recurse env tr (loc.split .TopRight) ci
          let rbl := recurse env bl (loc.split .BottomLeft) ci
          let rbr := recurse env br (loc.split .BottomRight) ci
          let em := rtl.1 ++ rtr.1 ++ rbl.1 ++ rbr.1
          let results : Child → LODSelectResult := fun child =>
            match child with
            | .TopLeft => rtl.2
            | .TopRight => rtr.2
            | .BottomLeft => rbl.2
            | .BottomRight => rbr.2
          if childValues.all (fun child => (results child).is_not_selected) then
            (em ++ [addVisible env.splitDistances g loc .Whole], .Selected)
          else
            let partials := (childValues.filter
                (fun child => (results child).is_not_selected)).map
              (fun child => addVisible env.splitDistances g loc (.Child child))
            (em ++ partials,
             if childValues.any (fun child => results child = .Selected) then
               LODSelectResult.Selected
             else LODSelectResult.OutOfFrustum)
      | .wholePhase => ([addVisible env.splitDistances g loc .Whole], .Selected)

/-- A quadtree node of the residency pass (`Node`,
`src/planet/renderer/node.rs`): `Pending` with its request id, or
resident (`WithGeometry`) with its backing slot id.  The priority token
lives in `RState.priorities`, keyed by request id; the rest of the
geometry record is irrelevant to the bookkeeping claims. -/
inductive RNode where
  | pending (id : Nat)
  | withGeometry (slot : Nat)
deriving DecidableEq, Repr

/-- Fetch the subtree at a path of child choices. -/
def QuadTree.getNode {α : Type} : QuadTree α → List Child → Option (QuadTree α)
  | t, [] => some t
  | .leaf _, _ :: _ => none
  | .branch _ tl tr bl br, c :: p =>
      (match c with
       | Child.TopLeft => tl
       | Child.TopRight => tr
       | Child.BottomLeft => bl
       | Child.BottomRight => br).getNode p

/-- Replace the subtree at a path (no change when the path is invalid). -/
def QuadTree.setNode {α : Type} : QuadTree α → List Child → QuadTree α → QuadTree α
  | _, [], u => u
  | .leaf c, _ :: _, _ => .leaf c
  | .branch c tl tr bl br, ch :: p, u =>
      match ch with
      | .TopLeft => .branch c (tl.setNode p u) tr bl br
      | .TopRight => .branch c tl (tr.setNode p u) bl br
      | .BottomLeft => .branch c tl tr (bl.setNode p u) br
      | .BottomRight => .branch c tl tr bl (br.setNode p u)

/-- Overwrite the content of the root node, keeping the children — the
effect of `(**node).content = node_geometry` in `receive_all`. -/
def QuadTree.withContent {α : Type} (t : QuadTree α) (c : α) : QuadTree α :=
  match t with
  | .leaf _ => .leaf c
  | .branch _ tl tr bl br => .branch c tl tr bl br

/-- `p` leads to `q`: `q` addresses a node inside the subtree rooted at
`p` (including `p` itself). -/
def pathLeads (p q : List Child) : Prop :=
  ∃ r, q = p ++ r

/-- `remove_face`, `src/planet/renderer/mod.rs`, as a pure function on a
subtree: first `merge` the node (destroying its children recursively),
then cancel its own pending request (priority 0, map entry removed) or
release its own slot.  Returns the released slot ids and the cancelled
request ids, in execution order. -/
def removeFace : QuadTree RNode → List Nat × List Nat
  | .leaf (.pending id) => ([], [id])
  | .leaf (.withGeometry slot) => ([slot], [])
  | .branch content tl tr bl br =>
      let etl := removeFace tl
      let etr := removeFace tr
      let ebl := removeFace bl
      let ebr := removeFace br
      let released := etl.1 ++ etr.1 ++ ebl.1 ++ ebr.1
      let cancelled := etl.2 ++ etr.2 ++ ebl.2 ++ ebr.2
      match content with
      | .pending id => (released, cancelled ++ [id])
      | .withGeometry slot => (released ++ [slot], cancelled)

/-- `merge`, `src/planet/renderer/mod.rs`: run `remove_face` on each of
the four children (when present) and set `children = None`.  Returns the
merged subtree together with the released slot ids and cancelled request
ids. -/
def mergeNode : QuadTree RNode → QuadTree RNode × List Nat × List Nat
  | .leaf c => (.leaf c, [], [])
  | .branch c tl tr bl br =>
      let etl := removeFace tl
      let etr := removeFace tr
      let ebl := removeFace bl
      let ebr := removeFace br
      (.leaf c, etl.1 ++ etr.1 ++ ebl.1 ++ ebr.1, etl.2 ++ etr.2 ++ ebl.2 ++ ebr.2)

/-- The renderer state touched by the residency pass: the face roots,
the pending-requests map (request id mapped to a node address, rendered
as a face index plus tree path — the functional counterpart of the raw
`*mut QuadTree<Node>` the source stores), the priority of every issued
request token, and the provider's id counter `NEXT`. -/
structure RState where
  faces : List (QuadTree RNode)
  pending : List (Nat × Nat × List Child)
  priorities : Nat → Nat
  nextId : Nat

/-- The content of the node at a given face and path, when it exists. -/
def contentAt (s : RState) (f : Nat) (p : List Child) : Option RNode :=
  (s.faces.get? f).bind (fun root => (root.getNode p).map QuadTree.content)

/-- The split step of `ensure_resident_children`
(`src/planet/renderer/mod.rs`): when the node at the address is resident
and childless, create four Pending children via `request_node` — each
queued with a fresh id from the provider counter, priority stored as the
child location's `lod_level + 1`, and recorded in the pending map. -/
def splitAt (s : RState) (f : Nat) (p : List Child) (child_lod : Nat) : RState :=
  match s.faces.get? f with
  | none => s
  | some root =>
      match root.getNode p with
      | some (.leaf (.withGeometry slot)) =>
          let n := s.nextId
          let newNode : QuadTree RNode :=
            .branch (.withGeometry slot)
              (.leaf (.pending n)) (.leaf (.pending (n + 1)))
              (.leaf (.pending (n + 2))) (.leaf (.pending (n + 3)))
          { faces := s.faces.set f (root.setNode p newNode)
            pending := s.pending ++
              [(n, f, p ++ [Child.TopLeft]), (n + 1, f, p ++ [Child.TopRight]),
               (n + 2, f, p ++ [Child.BottomLeft]), (n + 3, f, p ++ [Child.BottomRight])]
            priorities := fun id =>
              if id = n ∨ id = n + 1 ∨ id = n + 2 ∨ id = n + 3 then child_lod + 1
              else s.priorities id
            nextId := n + 4 }
      | _ => s

/-- The merge step of `ensure_resident_children`: destroy the children
of the node at the address; every Pending node in the destroyed subtrees
has its priority set to 0 and its map entry removed (`remove_face`). -/
def mergeAt (s : RState) (f : Nat) (p : List Child) : RState :=
  match s.faces.get? f with
  | none => s
  | some root =>
      match root.getNode p with
      | none => s
      | some sub =>
          let m := mergeNode sub
          { faces := s.faces.set f (root.setNode p m.1)
            pending := s.pending.filter (fun e => e.1 ∉ m.2.2)
            priorities := fun id => if id ∈ m.2.2 then 0 else s.priorities id
            nextId := s.nextId }

/-- One result drained by `receive_all`
(`src/planet/renderer/mod.rs`): look the id up in the pending map; when
present, overwrite the node's content with the received geometry and
remove the map entry; a stale id (already cancelled) is dropped. -/
def receiveAt (s : RState) (id slot : Nat) : RState :=
  match s.pending.find? (fun e => e.1 = id) with
  | none => s
  | some e =>
      match s.faces.get? e.2.1 with
      | none => s
      | some root =>
          match root.getNode e.2.2 with
          | none => s
          | some sub =>
              { faces := s.faces.set e.2.1
                  (root.setNode e.2.2 (sub.withContent (.withGeometry slot)))
                pending := s.pending.filter (fun e2 => e2.1 ≠ id)
                priorities := s.priorities
                nextId := s.nextId }

/-- A priority store through a token
(`token.priority.store(..)` in `ensure_resident_children`). -/
def storePriority (s : RState) (id v : Nat) : RState :=
  { s with priorities := fun i => if i = id then v else s.priorities i }

/-- One residency-pass step: split (create Pending children via
`request_node`), merge an out-of-range node, drain one provider result,
or store a priority. -/
inductive RStep : RState → RState → Prop where
  | split (s : RState) (f : Nat) (p : List Child) (child_lod : Nat) :
      RStep s (splitAt s f p child_lod)
  | merge (s : RState) (f : Nat) (p : List Child) :
      RStep s (mergeAt s f p)
  | receive (s : RState) (id slot : Nat) :
      RStep s (receiveAt s id slot)
  | store (s : RState) (id v : Nat) :
      RStep s (storePriority s id v)

/-- The initial renderer state: each face root resident
(`generate_face` in `Renderer::new`), empty pending map, provider
counter at 0. -/
def initState (slots : List Nat) : RState :=
  { faces := slots.map (fun slot => QuadTree.leaf (RNode.withGeometry slot))
    pending := []
    priorities := fun _ => 1
    nextId := 0 }

/-- A state reachable from some initial state by residency steps. -/
def Reachable (s : RState) : Prop :=
  ∃ slots, Relation.ReflTransGen RStep (initState slots) s

/-- The pending-map invariant: every map entry points at a live Pending
node carrying the entry's key as its request id; conversely every
Pending node is registered; keys are distinct; and all issued ids are
below the provider counter. -/
def PendingInv (s : RState) : Prop :=
  (∀ e ∈ s.pending, contentAt s e.2.1 e.2.2 = some (.pending e.1)) ∧
  (∀ f p id, contentAt s f p = some (.pending id) → (id, f, p) ∈ s.pending) ∧
  (s.pending.map Prod.fst).Nodup ∧
  (∀ f p id, contentAt s f p = some (.pending id) → id < s.nextId)


end Omniverse

namespace Omniverse

theorem mem_of_getLast?_eq {α : Type} {l : List α} {x : α}
    (h : l.getLast? = some x) : x ∈ l := by
  obtain ⟨l', rfl⟩ := List.getLast?_eq_some_iff.mp h
  simp

theorem pairwise_le_getLast? {l : List Request}
    (hs : List.Pairwise (fun a b : Request => a.priority ≤ b.priority) l)
    {m : Request} (hm : l.getLast? = some m) :
    ∀ x ∈ l, x.priority ≤ m.priority := by
  induction l with
  | nil => simp at hm
  | cons a l ih =>
      intro x hx
      cases l with
      | nil =>
          simp at hm hx
          subst hm; subst hx
          exact le_refl _
      | cons b l' =>
          rw [List.getLast?_cons_cons] at hm
          rcases List.mem_cons.mp hx with rfl | hx'
          · have hmem : m ∈ b :: l' := mem_of_getLast?_eq hm
            exact (List.pairwise_cons.mp hs).1 m hmem
          · exact ih (List.pairwise_cons.mp hs).2 hm x hx'

theorem le_or_512 (a : Nat) : 512 ≤ a ||| 512 := by
  have h : (a ||| 512).testBit 9 = true := by
    rw [Nat.testBit_or]
    have h9 : Nat.testBit 512 9 = true := by decide
    simp [h9]
  have := Nat.testBit_implies_ge h
  simpa using this

theorem dequeue_sorted (queue : List Request) :
    List.Pairwise (fun a b : Request => a.priority ≤ b.priority)
      ((queue.filter (fun r => r.priority != 0)).mergeSort
        (fun a b => a.priority ≤ b.priority)) := by
  have h := @List.sorted_mergeSort Request
    (fun a b : Request => decide (a.priority ≤ b.priority))
    (fun a b c h₁ h₂ => by
      simp only [decide_eq_true_eq] at h₁ h₂ ⊢
      exact le_trans h₁ h₂)
    (fun a b => by
      simp only [Bool.or_eq_true, decide_eq_true_eq]
      exact Nat.le_or_le _ _)
    (queue.filter (fun r => r.priority != 0))
  refine h.imp ?_
  intro a b hab
  simpa using hab

theorem V3.normSq_nonneg (a : V3) : 0 ≤ a.normSq := by
  simp only [V3.normSq, V3.dot]
  nlinarith [mul_self_nonneg a.x, mul_self_nonneg a.y, mul_self_nonneg a.z]

theorem V3.norm_mul_self (a : V3) : a.norm * a.norm = a.normSq :=
  Real.mul_self_sqrt a.normSq_nonneg

theorem V3.norm_nonneg (a : V3) : 0 ≤ a.norm :=
  Real.sqrt_nonneg _

theorem V3.norm_pos (a : V3) (h : 0 < a.normSq) : 0 < a.norm :=
  Real.sqrt_pos.mpr h

theorem V3.dot_comm (a b : V3) : a.dot b = b.dot a := by
  simp only [V3.dot]
  ring

theorem V3.dot_self (a : V3) : a.dot a = a.normSq := rfl

theorem V3.smul_dot (t : ℝ) (a b : V3) : (V3.smul t a).dot b = t * (a.dot b) := by
  simp only [V3.smul, V3.dot]
  ring

theorem V3.normSq_sub (a b : V3) :
    (a.sub b).normSq = a.normSq - 2 * (a.dot b) + b.normSq := by
  simp only [V3.sub, V3.normSq, V3.dot]
  ring

theorem cone_pca_eq (c q : V3) (hc : c.norm ≠ 0) :
    ((c.normalize).neg).dot (q.sub c) = (c.normSq - q.dot c) / c.norm := by
  have h2 : c.norm * c.norm = c.normSq := V3.norm_mul_self c
  simp only [V3.normalize, V3.neg, V3.smul, V3.dot, V3.sub, V3.normSq] at h2 ⊢
  field_simp
  nlinarith [h2]

/-- C7: for a camera strictly outside the planet (distance-to-center
squared above the squared radius), every point of the sphere on the far
side -- the open hemisphere facing away from the camera, `p.dot c < 0` --
is classified `Inside` the horizon cone built by `Cone::new`, and every
point strictly between the camera and the planet surface -- `t • c` with
`R < t·‖c‖ < ‖c‖`, stated as `R·R < t·t·‖c‖²` and `0 < t < 1` -- is
classified `Outside`. -/
theorem c7_horizon_cone_classification (c : V3) (R : ℝ)
    (hR : 0 < R) (hD : R * R < c.normSq) :
    (∀ p : V3, p.normSq = R * R → p.dot c < 0 →
        (Cone.new c R).classifyPoint p = Containment.Inside) ∧
    (∀ t : ℝ, 0 < t → t < 1 → R * R < t * t * c.normSq →
        (Cone.new c R).classifyPoint (V3.smul t c) = Containment.Outside) := by
  have hRR : 0 < R * R := mul_pos hR hR
  have hN0 : 0 < c.normSq := lt_trans hRR hD
  have hDpos : 0 < c.norm := V3.norm_pos c hN0
  have hDne : c.norm ≠ 0 := ne_of_gt hDpos
  have hD2 : c.norm * c.norm = c.normSq := V3.norm_mul_self c
  have hS0 : 0 < c.norm * c.norm - R * R := by rw [hD2]; linarith
  have hSpos : 0 < Real.sqrt (c.norm * c.norm - R * R) := Real.sqrt_pos.mpr hS0
  have hS2 : Real.sqrt (c.norm * c.norm - R * R) * Real.sqrt (c.norm * c.norm - R * R)
      = c.norm * c.norm - R * R := Real.mul_self_sqrt (le_of_lt hS0)
  have horigin : (Cone.new c R).origin = c := rfl
  have hdir : (Cone.new c R).direction = (c.normalize).neg := rfl
  have hnear : (Cone.new c R).near_distance = c.norm - R * R / c.norm := rfl
  have hcos : (Cone.new c R).cos_angle
      = (c.norm - R * R / c.norm) / Real.sqrt (c.norm * c.norm - R * R) := rfl
  have hnearD : (c.norm - R * R / c.norm) * c.norm = c.norm * c.norm - R * R := by
    field_simp
  constructor
  · intro p hp hw
    have hT2 : (p.sub c).norm * (p.sub c).norm
        = R * R - 2 * (p.dot c) + c.normSq := by
      rw [V3.norm_mul_self, V3.normSq_sub, hp]
    have hTpos : 0 < (p.sub c).norm := by
      apply V3.norm_pos
      rw [V3.normSq_sub, hp]
      nlinarith
    have hApos : 0 < c.normSq - p.dot c := by nlinarith
    have hkey : Real.sqrt (c.norm * c.norm - R * R) * (p.sub c).norm
        < c.normSq - p.dot c := by
      have hexp : (Real.sqrt (c.norm * c.norm - R * R) * (p.sub c).norm) ^ 2
          = (c.normSq - R * R) * (R * R - 2 * (p.dot c) + c.normSq) := by
        have hsq : (Real.sqrt (c.norm * c.norm - R * R) * (p.sub c).norm) ^ 2
            = (Real.sqrt (c.norm * c.norm - R * R) * Real.sqrt (c.norm * c.norm - R * R))
              * ((p.sub c).norm * (p.sub c).norm) := by ring
        rw [hsq, hS2, hT2, hD2]
      have hh : 0 < R * R - p.dot c := by linarith
      have hsqlt : (Real.sqrt (c.norm * c.norm - R * R) * (p.sub c).norm) ^ 2
          < (c.normSq - p.dot c) ^ 2 := by
        nlinarith [hexp, mul_pos hh hh]
      exact lt_of_pow_lt_pow_left₀ 2 (le_of_lt hApos) hsqlt
    have hcond : (Cone.new c R).insideCondition p := by
      simp only [Cone.insideCondition, horigin, hdir, hnear, hcos]
      rw [cone_pca_eq c p hDne]
      constructor
      · rw [gt_iff_lt, lt_div_iff₀ hDpos, hnearD]
        nlinarith
      · rw [gt_iff_lt, div_div,
          div_lt_div_iff₀ hSpos (mul_pos hDpos hTpos)]
        calc (c.norm - R * R / c.norm) * (c.norm * (p.sub c).norm)
            = ((c.norm - R * R / c.norm) * c.norm) * (p.sub c).norm := by ring
          _ = (Real.sqrt (c.norm * c.norm - R * R)
                * Real.sqrt (c.norm * c.norm - R * R)) * (p.sub c).norm := by
              rw [hnearD, hS2]
          _ = (Real.sqrt (c.norm * c.norm - R * R) * (p.sub c).norm)
                * Real.sqrt (c.norm * c.norm - R * R) := by ring
          _ < (c.normSq - p.dot c) * Real.sqrt (c.norm * c.norm - R * R) :=
              mul_lt_mul_of_pos_right hkey hSpos
    unfold Cone.classifyPoint
    rw [if_pos hcond]
  · intro t ht0 ht1 htR
    have hcond : ¬ (Cone.new c R).insideCondition (V3.smul t c) := by
      intro hcondpos
      simp only [Cone.insideCondition, horigin, hdir, hnear, hcos] at hcondpos
      obtain ⟨h1, _⟩ := hcondpos
      rw [cone_pca_eq c _ hDne] at h1
      rw [gt_iff_lt, lt_div_iff₀ hDpos, hnearD] at h1
      have hdotc : (V3.smul t c).dot c = t * c.normSq := by
        rw [V3.smul_dot, V3.dot_self]
      rw [hdotc, hD2] at h1
      have ht2 : t * t * c.normSq < t * c.normSq := by nlinarith
      linarith
    unfold Cone.classifyPoint
    rw [if_neg hcond]

theorem tmod_small (a b : ℤ) (h0 : 0 ≤ a) (h1 : a < b) : a.tmod b = a := by
  rw [Int.tmod_eq_emod h0 (le_of_lt (lt_of_le_of_lt h0 h1)), Int.emod_eq_of_lt h0 h1]

theorem tdiv_shift (r q size : ℤ) (h0 : 0 ≤ r) (h1 : r < size) (hq : 0 ≤ q) :
    (r + q * size).tdiv size = q := by
  have hsize : 0 < size := lt_of_le_of_lt h0 h1
  have hnn : 0 ≤ r + q * size := add_nonneg h0 (mul_nonneg hq (le_of_lt hsize))
  rw [Int.tdiv_eq_ediv hnn (le_of_lt hsize), Int.add_mul_ediv_right _ _ (ne_of_gt hsize),
    Int.ediv_eq_zero_of_lt h0 h1, zero_add]

theorem tmod_shift (r q size : ℤ) (h0 : 0 ≤ r) (h1 : r < size) (hq : 0 ≤ q) :
    (r + q * size).tmod size = r := by
  have hsize : 0 < size := lt_of_le_of_lt h0 h1
  have hnn : 0 ≤ r + q * size := add_nonneg h0 (mul_nonneg hq (le_of_lt hsize))
  rw [Int.tmod_eq_emod hnn (le_of_lt hsize)]
  rw [show r + q * size = r + size * q from by ring]
  rw [Int.add_mul_emod_self_left, Int.emod_eq_of_lt h0 h1]

theorem add_dx_in_range (c : CubeCoord) (dx size : ℤ)
    (h0 : 0 ≤ c.x + dx) (h1 : c.x + dx < size) :
    c.add_dx dx size = ⟨c.x + dx, c.y, c.face⟩ := by
  obtain ⟨x, y, f⟩ := c
  simp only [CubeCoord.add_dx]
  rw [if_pos ⟨h0, h1⟩]

theorem add_dy_in_range (c : CubeCoord) (dy size : ℤ)
    (h0 : 0 ≤ c.y + dy) (h1 : c.y + dy < size) :
    c.add_dy dy size = ⟨c.x, c.y + dy, c.face⟩ := by
  obtain ⟨x, y, f⟩ := c
  simp only [CubeCoord.add_dy]
  rw [if_pos ⟨h0, h1⟩]

theorem add_dx_cross_low (c : CubeCoord) (k size : ℤ)
    (hf : c.face.equatorial = true) (hx0 : 0 ≤ c.x)
    (hlow : c.x + k < 0) (hlb : -size ≤ c.x + k) :
    c.add_dx k size = ⟨c.x + k + size, c.y,
      primitive_to_face ((3 + face_to_primitive c.face).tmod 4)⟩ := by
  have hr0 : 0 ≤ c.x + k + size := by omega
  have hr1 : c.x + k + size < size := by omega
  obtain ⟨x, y, f⟩ := c
  simp only at hr0 hr1 hlow
  cases f <;> simp [Face.equatorial] at hf <;>
    · simp only [CubeCoord.add_dx]
      rw [if_neg (by omega)]
      simp only [face_to_primitive]
      rw [show x + k + 4 * size = (x + k + size) + 3 * size from by ring]
      rw [tdiv_shift _ 3 _ hr0 hr1 (by norm_num)]
      rw [tmod_small _ _ hr0 hr1]

theorem add_dx_cross_high (c : CubeCoord) (k size : ℤ)
    (hf : c.face.equatorial = true) (hx1 : c.x < size)
    (hhigh : size ≤ c.x + k) (hub : c.x + k < 2 * size) :
    c.add_dx k size = ⟨c.x + k - size, c.y,
      primitive_to_face ((5 + face_to_primitive c.face).tmod 4)⟩ := by
  have hsize : 0 < size := by omega
  have hr0 : 0 ≤ c.x + k - size := by omega
  have hr1 : c.x + k - size < size := by omega
  obtain ⟨x, y, f⟩ := c
  simp only at hr0 hr1 hhigh
  cases f <;> simp [Face.equatorial] at hf <;>
    · simp only [CubeCoord.add_dx]
      rw [if_neg (by omega)]
      simp only [face_to_primitive]
      rw [show x + k + 4 * size = (x + k - size) + 5 * size from by ring]
      rw [show x + k + size = (x + k - size) + 2 * size from by ring]
      rw [tdiv_shift _ 5 _ hr0 hr1 (by norm_num)]
      rw [tmod_shift _ 2 _ hr0 hr1 (by norm_num)]

theorem equatorial_step3 (f : Face) (hf : f.equatorial = true) :
    (primitive_to_face ((3 + face_to_primitive f).tmod 4)).equatorial = true := by
  cases f <;> revert hf <;> decide

theorem equatorial_step5 (f : Face) (hf : f.equatorial = true) :
    (primitive_to_face ((5 + face_to_primitive f).tmod 4)).equatorial = true := by
  cases f <;> revert hf <;> decide

theorem equatorial_roundface_low (f : Face) (hf : f.equatorial = true) :
    primitive_to_face
      ((5 + face_to_primitive (primitive_to_face ((3 + face_to_primitive f).tmod 4))).tmod 4)
      = f := by
  cases f <;> revert hf <;> decide

theorem equatorial_roundface_high (f : Face) (hf : f.equatorial = true) :
    primitive_to_face
      ((3 + face_to_primitive (primitive_to_face ((5 + face_to_primitive f).tmod 4))).tmod 4)
      = f := by
  cases f <;> revert hf <;> decide

theorem splitDistancesLoop_eq (n : Nat) :
    ∀ (last_value : ℚ) (acc : List ℚ),
      splitDistancesLoop n last_value acc = acc ++ splitDistancesPushed n last_value := by
  induction n with
  | zero => intro l a; simp [splitDistancesLoop, splitDistancesPushed]
  | succ n ih =>
      intro l a
      simp [splitDistancesLoop, splitDistancesPushed, ih]

theorem splitDistancesPushed_succ (n : Nat) :
    ∀ last_value : ℚ,
      splitDistancesPushed (n + 1) last_value
        = splitDistancesPushed n last_value ++ [last_value * 2 ^ (n + 1)] := by
  induction n with
  | zero => intro l; simp [splitDistancesPushed]
  | succ n ih =>
      intro l
      rw [show n + 1 + 1 = (n + 1) + 1 from rfl]
      conv_lhs => rw [splitDistancesPushed]
      rw [ih (l * 2)]
      simp [splitDistancesPushed]
      ring

theorem splitDistances_eq_spec (n : Nat) : splitDistances n = splitDistancesSpec n := by
  induction n with
  | zero => simp [splitDistances, splitDistancesLoop, splitDistancesSpec]
  | succ n ih =>
      unfold splitDistances at *
      rw [splitDistancesLoop_eq] at *
      rw [splitDistancesPushed_succ]
      simp only [List.reverse_append, List.append_assoc] at *
      simp only [List.reverse_cons, List.reverse_nil] at *
      simp only [splitDistancesSpec]
      rw [← ih]
      simp
      ring

theorem splitDistancesSpec_length (n : Nat) : (splitDistancesSpec n).length = n + 1 := by
  induction n with
  | zero => rfl
  | succ n ih => simp [splitDistancesSpec, ih]

theorem splitDistancesSpec_ne_nil (n : Nat) : splitDistancesSpec n ≠ [] := by
  cases n <;> simp [splitDistancesSpec]

theorem splitDistancesSpec_head (n : Nat) :
    (splitDistancesSpec (n + 1)).head? = some ((2 : ℚ) ^ (n + 2)) := by
  simp [splitDistancesSpec]

theorem splitDistancesSpec_decreasing (n : Nat) :
    List.Chain' (fun a b : ℚ => b < a) (splitDistancesSpec n) := by
  induction n with
  | zero => simp [splitDistancesSpec]
  | succ n ih =>
      rw [splitDistancesSpec, List.chain'_cons']
      refine ⟨?_, ih⟩
      intro b hb
      cases n with
      | zero => simp [splitDistancesSpec] at hb; subst hb; norm_num
      | succ m =>
          rw [splitDistancesSpec_head] at hb
          simp at hb
          subst hb
          exact pow_lt_pow_right₀ (by norm_num) (by omega)

theorem splitDistancesSpec_dropLast_ratio2 (n : Nat) :
    List.Chain' (fun a b : ℚ => a = 2 * b) (splitDistancesSpec n).dropLast := by
  induction n with
  | zero => simp [splitDistancesSpec]
  | succ n ih =>
      rw [splitDistancesSpec,
        List.dropLast_cons_of_ne_nil (splitDistancesSpec_ne_nil n), List.chain'_cons']
      refine ⟨?_, ih⟩
      intro b hb
      cases n with
      | zero => simp [splitDistancesSpec] at hb
      | succ m =>
          rw [splitDistancesSpec,
            List.dropLast_cons_of_ne_nil (splitDistancesSpec_ne_nil m)] at hb
          simp at hb
          subst hb
          ring

theorem splitDistancesSpec_getLast (n : Nat) :
    (splitDistancesSpec n).getLast? = some 1 := by
  induction n with
  | zero => rfl
  | succ n ih =>
      rw [splitDistancesSpec]
      cases hs : splitDistancesSpec n with
      | nil => exact absurd hs (splitDistancesSpec_ne_nil n)
      | cons a l =>
          rw [hs] at ih
          rw [List.getLast?_cons_cons]
          exact ih

theorem splitDistancesSpec_penultimate (n : Nat) (h : 1 ≤ n) :
    (splitDistancesSpec n).get? (n - 1) = some 4 := by
  induction n with
  | zero => omega
  | succ n ih =>
      cases n with
      | zero => rfl
      | succ m =>
          have := ih (by omega)
          simpa [splitDistancesSpec] using this

/-- C4 counterexample: for `max_lod_level = 3` the constructed vector is
`[16, 8, 4, 1]`, and its final adjacent pair has ratio 4, so it is not
true that for every adjacent pair the earlier entry is exactly twice the
later one. -/
theorem c4_ratio2_counterexample :
    splitDistances 3 = [16, 8, 4, 1] ∧
    ¬ List.Chain' (fun a b : ℚ => a = 2 * b) (splitDistances 3) := by
  have hval : splitDistances 3 = [16, 8, 4, 1] := by
    rw [splitDistances_eq_spec]
    simp [splitDistancesSpec]
    norm_num
  refine ⟨hval, ?_⟩
  intro h
  rw [hval] at h
  have h4 : (4 : ℚ) = 2 * 1 := (List.chain'_cons.mp (List.chain'_cons.mp
    (List.chain'_cons.mp h).2).2).1
  norm_num at h4

/-- C4 (amended): for every `max_lod_level ≥ 1` (the source clamps it to
at least 1), the `split_distances` vector has length `max_lod_level + 1`,
is strictly decreasing, every adjacent pair except the final one has the
earlier entry exactly twice the later one, and the final pair is `4, 1`
(ratio 4): the last entry is `1` and the one before it is `4`. -/
theorem c4_splitDistances_structure (m : Nat) (h : 1 ≤ m) :
    (splitDistances m).length = m + 1 ∧
    List.Chain' (fun a b : ℚ => b < a) (splitDistances m) ∧
    List.Chain' (fun a b : ℚ => a = 2 * b) (splitDistances m).dropLast ∧
    (splitDistances m).getLast? = some 1 ∧
    (splitDistances m).get? (m - 1) = some 4 := by
  rw [splitDistances_eq_spec]
  exact ⟨splitDistancesSpec_length m, splitDistancesSpec_decreasing m,
    splitDistancesSpec_dropLast_ratio2 m, splitDistancesSpec_getLast m,
    splitDistancesSpec_penultimate m h⟩

/-- Witness for C4 at `max_lod_level = 3`. -/
theorem c4_splitDistances_structure_witness :
    1 ≤ 3 ∧
    ((splitDistances 3).length = 3 + 1 ∧
     List.Chain' (fun a b : ℚ => b < a) (splitDistances 3) ∧
     List.Chain' (fun a b : ℚ => a = 2 * b) (splitDistances 3).dropLast ∧
     (splitDistances 3).getLast? = some 1 ∧
     (splitDistances 3).get? (3 - 1) = some 4) :=
  ⟨by decide, c4_splitDistances_structure 3 (by decide)⟩

/-- C6: `PatchLocation::split` halves the size, increments the LOD level,
and the four children exactly partition the parent square: their union is
the parent square and their interiors are pairwise disjoint. -/
theorem patchLocation_split_partition :
    (∀ (l : PatchLocation) (c : Child),
        (l.split c).size = l.size / 2 ∧ (l.split c).lod_level = l.lod_level + 1) ∧
    (∀ (l : PatchLocation) (p : ℚ × ℚ),
        l.inSquare p ↔ ∃ c : Child, (l.split c).inSquare p) ∧
    (∀ (l : PatchLocation) (c c' : Child), c ≠ c' →
        ∀ p : ℚ × ℚ, ¬((l.split c).inInterior p ∧ (l.split c').inInterior p)) := by
  refine ⟨?_, ?_, ?_⟩
  · intro l c
    cases c <;> simp [PatchLocation.split] <;> ring
  · intro l p
    constructor
    · rintro ⟨h1, h2, h3, h4⟩
      rcases le_total p.1 (l.offsetX + l.size * (1/2)) with hx | hx <;>
        rcases le_total p.2 (l.offsetY + l.size * (1/2)) with hy | hy
      · refine ⟨.TopLeft, ?_⟩
        simp only [PatchLocation.split, PatchLocation.inSquare]
        refine ⟨by linarith, by linarith, by linarith, by linarith⟩
      · refine ⟨.BottomLeft, ?_⟩
        simp only [PatchLocation.split, PatchLocation.inSquare]
        refine ⟨by linarith, by linarith, by linarith, by linarith⟩
      · refine ⟨.TopRight, ?_⟩
        simp only [PatchLocation.split, PatchLocation.inSquare]
        refine ⟨by linarith, by linarith, by linarith, by linarith⟩
      · refine ⟨.BottomRight, ?_⟩
        simp only [PatchLocation.split, PatchLocation.inSquare]
        refine ⟨by linarith, by linarith, by linarith, by linarith⟩
    · rintro ⟨c, h⟩
      cases c <;>
        · simp only [PatchLocation.split, PatchLocation.inSquare] at h
          obtain ⟨h1, h2, h3, h4⟩ := h
          refine ⟨by linarith, by linarith, by linarith, by linarith⟩
  · intro l c c' hne p ⟨h, h'⟩
    cases c <;> cases c' <;> simp at hne <;>
      · simp only [PatchLocation.split, PatchLocation.inInterior] at h h'
        obtain ⟨a1, a2, a3, a4⟩ := h
        obtain ⟨b1, b2, b3, b4⟩ := h'
        linarith

/-- C3 counterexample: a finer-LOD (level 3) Pending node whose parent is
in the frustum gets priority `3 | 512 = 515`, which is numerically
HIGHER, not lower, than the priority `1` of a coarser-LOD (level 1) node
whose parent is out of the frustum. -/
theorem c3_priority_counterexample :
    (1 : Nat) < 3 ∧ ¬ (pendingPriority 3 true < pendingPriority 1 false) := by
  decide

/-- C3 (amended): among Pending nodes, a finer-LOD node whose parent is
in the frustum has a numerically HIGHER priority value than a coarser-LOD
node whose parent is out of the frustum (the worker treats larger values
as more urgent); the worker dequeue step drops all priority-0 requests,
leaves the remaining queue sorted by priority ascending, and pops the
last, numerically largest (most urgent) item. -/
theorem c3_priority_encoding_and_dequeue :
    (∀ finerLod coarserLod : Nat, coarserLod < finerLod → coarserLod < 512 →
        pendingPriority coarserLod false < pendingPriority finerLod true) ∧
    (∀ (q : List Request) (r : Request), (dequeue q).1 = some r →
        r ∈ q ∧ r.priority ≠ 0 ∧
        ∀ r' ∈ q, r'.priority ≠ 0 → r'.priority ≤ r.priority) ∧
    (∀ q : List Request,
        List.Pairwise (fun a b : Request => a.priority ≤ b.priority) (dequeue q).2 ∧
        ∀ r' ∈ (dequeue q).2, r'.priority ≠ 0) ∧
    (∀ q : List Request, (∀ r' ∈ q, r'.priority = 0) → (dequeue q).1 = none) := by
  refine ⟨?_, ?_, ?_, ?_⟩
  · intro finerLod coarserLod _ h512
    simp only [pendingPriority, if_pos, if_neg, Bool.false_eq_true, not_false_iff,
      if_false, if_true]
    calc coarserLod ||| 0 = coarserLod := Nat.or_zero _
    _ < 512 := h512
    _ ≤ finerLod ||| 512 := le_or_512 _
  · intro q r hr
    simp only [dequeue] at hr
    set retained := q.filter (fun r => r.priority != 0) with hret
    set sorted := retained.mergeSort (fun a b => a.priority ≤ b.priority) with hsort
    have hperm : sorted.Perm retained := List.mergeSort_perm _ _
    have hmem : r ∈ sorted := mem_of_getLast?_eq hr
    have hmemret : r ∈ retained := hperm.mem_iff.mp hmem
    have hrq : r ∈ q := List.mem_of_mem_filter hmemret
    have hrnz : r.priority ≠ 0 := by
      have := List.of_mem_filter hmemret
      simpa using this
    refine ⟨hrq, hrnz, ?_⟩
    intro r' hr' hnz'
    have hr'ret : r' ∈ retained := by
      rw [hret]
      rw [List.mem_filter]
      exact ⟨hr', by simpa using hnz'⟩
    have hr'sorted : r' ∈ sorted := hperm.mem_iff.mpr hr'ret
    exact pairwise_le_getLast? (dequeue_sorted q) hr r' hr'sorted
  · intro q
    constructor
    · exact List.Pairwise.sublist (List.dropLast_sublist _) (dequeue_sorted q)
    · intro r' hr'
      simp only [dequeue] at hr'
      have hmem : r' ∈ (q.filter (fun r => r.priority != 0)).mergeSort
          (fun a b => a.priority ≤ b.priority) :=
        (List.dropLast_sublist _).mem hr'
      have hret : r' ∈ q.filter (fun r => r.priority != 0) :=
        (List.mergeSort_perm _ _).mem_iff.mp hmem
      have := List.of_mem_filter hret
      simpa using this
  · intro q hq
    simp only [dequeue]
    have hnil : q.filter (fun r => r.priority != 0) = [] := by
      rw [List.filter_eq_nil_iff]
      intro r hr
      simp [hq r hr]
    rw [hnil, List.mergeSort_nil]
    rfl

/-- C8: with all `MAX_PATCH_COUNT` slots live (counter at capacity,
empty free list), `SimpleIdArena::acquire` returns `None` and
`NodeBacking::acquire` therefore hits its
`expect("There are no more node id's available.")`, i.e. the process
panics (modelled by `none`) instead of skipping the split and
continuing. -/
theorem c8_acquire_full_panics :
    (SimpleIdArena.acquire ⟨MAX_PATCH_COUNT, [], MAX_PATCH_COUNT⟩).1 = none ∧
    nodeBackingAcquire ⟨MAX_PATCH_COUNT, [], MAX_PATCH_COUNT⟩ = none := by
  constructor
  · simp [SimpleIdArena.acquire]
  · simp [nodeBackingAcquire, SimpleIdArena.acquire]

/-- C9 counterexample: with `size = 2`, the valid coordinate
`(x, y) = (1, 0)` on face `Right` and `k = -1` (so `k.abs ≤ size`):
`add_dy(-1)` crosses onto the `Top` face with rotated axes, and
`add_dy(1)` then moves within `Top` to `(1, 1)` instead of returning to
the start. -/
theorem c9_roundtrip_counterexample :
    ((0 : ℤ) ≤ 1 ∧ (1 : ℤ) < 2 ∧ (0 : ℤ) ≤ 0 ∧ (0 : ℤ) < 2 ∧
     (-2 : ℤ) ≤ -1 ∧ (-1 : ℤ) ≤ 2) ∧
    CubeCoord.add_dy (CubeCoord.add_dy ⟨1, 0, .Right⟩ (-1) 2) 1 2 = ⟨1, 1, .Top⟩ ∧
    CubeCoord.add_dy (CubeCoord.add_dy ⟨1, 0, .Right⟩ (-1) 2) 1 2 ≠ ⟨1, 0, .Right⟩ := by
  refine ⟨by norm_num, ?_, ?_⟩ <;> decide

/-- C9 (amended): the `add_dx`/`add_dy` roundtrip holds for every step
that stays on the starting face, and `add_dx` additionally roundtrips
across face boundaries for the four equatorial faces
(`Front`/`Right`/`Back`/`Left`), for every valid coordinate and every
`k` with `-size ≤ k ≤ size`.  Steps that cross onto or off the pole
faces (`Top`/`Bottom`) land on a rotated axis and in general do not
roundtrip (see the counterexample). -/
theorem c9_roundtrip_amended (c : CubeCoord) (k size : ℤ)
    (hx0 : 0 ≤ c.x) (hx1 : c.x < size) (hy0 : 0 ≤ c.y) (hy1 : c.y < size)
    (hk0 : -size ≤ k) (hk1 : k ≤ size) :
    (c.face.equatorial = true → (c.add_dx k size).add_dx (-k) size = c) ∧
    (0 ≤ c.x + k → c.x + k < size → (c.add_dx k size).add_dx (-k) size = c) ∧
    (0 ≤ c.y + k → c.y + k < size → (c.add_dy k size).add_dy (-k) size = c) := by
  have hback : ∀ h0 : 0 ≤ c.x + k, ∀ h1 : c.x + k < size,
      (c.add_dx k size).add_dx (-k) size = c := by
    intro h0 h1
    rw [add_dx_in_range c k size h0 h1]
    rw [add_dx_in_range ⟨c.x + k, c.y, c.face⟩ (-k) size (by simpa using hx0)
      (by simpa using hx1)]
    obtain ⟨x, y, f⟩ := c
    simp
  refine ⟨?_, hback, ?_⟩
  · intro hf
    by_cases hin : 0 ≤ c.x + k ∧ c.x + k < size
    · exact hback hin.1 hin.2
    · rcases lt_or_le (c.x + k) 0 with hlow | hge
      · rw [add_dx_cross_low c k size hf hx0 hlow (by omega)]
        rw [add_dx_cross_high ⟨c.x + k + size, c.y,
            primitive_to_face ((3 + face_to_primitive c.face).tmod 4)⟩ (-k) size
          (equatorial_step3 c.face hf) (by simpa using by omega)
          (by simpa using by omega) (by simpa using by omega)]
        simp only
        rw [equatorial_roundface_low c.face hf]
        obtain ⟨x, y, f⟩ := c
        simp only [CubeCoord.mk.injEq]
        refine ⟨by ring, by trivial⟩
      · have hhigh : size ≤ c.x + k := by omega
        rw [add_dx_cross_high c k size hf hx1 hhigh (by omega)]
        rw [add_dx_cross_low ⟨c.x + k - size, c.y,
            primitive_to_face ((5 + face_to_primitive c.face).tmod 4)⟩ (-k) size
          (equatorial_step5 c.face hf) (by simpa using by omega)
          (by simpa using by omega) (by simpa using by omega)]
        simp only
        rw [equatorial_roundface_high c.face hf]
        obtain ⟨x, y, f⟩ := c
        simp only [CubeCoord.mk.injEq]
        refine ⟨by ring, by trivial⟩
  · intro h0 h1
    rw [add_dy_in_range c k size h0 h1]
    rw [add_dy_in_range ⟨c.x, c.y + k, c.face⟩ (-k) size (by simpa using hy0)
      (by simpa using hy1)]
    obtain ⟨x, y, f⟩ := c
    simp

/-- C1 counterexample: a Resident root (frustum `Intersects`, in range)
recurses into four Resident children that are all classified
`OutOfFrustum` — every child result is non-Selected in the claim's sense
— yet the parent emits no partial contribution and no whole
contribution at all (`is_not_selected` answers `false` for
`OutOfFrustum`, so those children are skipped). -/
theorem c1_outoffrustum_counterexample :
    ((recurse
        ⟨fun g => if g = 0 then Containment.Intersects else Containment.Outside,
         fun _ => false, fun _ _ => true, [4, 1]⟩
        (.leaf (.withGeometry 1))
        (PatchLocation.split ⟨Face.Front, 0, 0, 1, 0⟩ Child.TopLeft) false).2
        = LODSelectResult.OutOfFrustum) ∧
    ((recurse
        ⟨fun g => if g = 0 then Containment.Intersects else Containment.Outside,
         fun _ => false, fun _ _ => true, [4, 1]⟩
        (.leaf (.withGeometry 1))
        (PatchLocation.split ⟨Face.Front, 0, 0, 1, 0⟩ Child.TopRight) false).2
        = LODSelectResult.OutOfFrustum) ∧
    ((recurse
        ⟨fun g => if g = 0 then Containment.Intersects else Containment.Outside,
         fun _ => false, fun _ _ => true, [4, 1]⟩
        (.leaf (.withGeometry 1))
        (PatchLocation.split ⟨Face.Front, 0, 0, 1, 0⟩ Child.BottomLeft) false).2
        = LODSelectResult.OutOfFrustum) ∧
    ((recurse
        ⟨fun g => if g = 0 then Containment.Intersects else Containment.Outside,
         fun _ => false, fun _ _ => true, [4, 1]⟩
        (.leaf (.withGeometry 1))
        (PatchLocation.split ⟨Face.Front, 0, 0, 1, 0⟩ Child.BottomRight) false).2
        = LODSelectResult.OutOfFrustum) ∧
    (classifyGeomNode
        ⟨fun g => if g = 0 then Containment.Intersects else Containment.Outside,
         fun _ => false, fun _ _ => true, [4, 1]⟩
        0 ⟨Face.Front, 0, 0, 1, 0⟩ false = GeomPhase.splitPhase false) ∧
    (recurse
        ⟨fun g => if g = 0 then Containment.Intersects else Containment.Outside,
         fun _ => false, fun _ _ => true, [4, 1]⟩
        (.branch (.withGeometry 0) (.leaf (.withGeometry 1)) (.leaf (.withGeometry 1))
          (.leaf (.withGeometry 1)) (.leaf (.withGeometry 1)))
        ⟨Face.Front, 0, 0, 1, 0⟩ false).1 = [] := by
  decide

/-- C1 (amended): when a Resident node recurses into its four children,
a partial contribution for a child's quadrant is emitted iff that child's
result satisfies `is_not_selected` — that is, `Undefined`, `OutOfRange`
or `Pending`, but NOT `OutOfFrustum` — and not all four results do; when
all four child results satisfy `is_not_selected`, one whole contribution
is emitted instead (and none when, e.g., all children are
`OutOfFrustum`). -/
theorem c1_quadrant_fill (env : LODEnv) (g : Nat)
    (tl tr bl br : QuadTree SelNode) (loc : PatchLocation) (pcif ci : Bool)
    (hphase : classifyGeomNode env g loc pcif = .splitPhase ci) :
    (recurse env (.branch (.withGeometry g) tl tr bl br) loc pcif).1 =
      (recurse env tl (loc.split .TopLeft) ci).1 ++
      (recurse env tr (loc.split .TopRight) ci).1 ++
      (recurse env bl (loc.split .BottomLeft) ci).1 ++
      (recurse env br (loc.split .BottomRight) ci).1 ++
      (if ((recurse env tl (loc.split .TopLeft) ci).2.is_not_selected &&
           ((recurse env tr (loc.split .TopRight) ci).2.is_not_selected &&
            ((recurse env bl (loc.split .BottomLeft) ci).2.is_not_selected &&
             (recurse env br (loc.split .BottomRight) ci).2.is_not_selected))) = true
       then [addVisible env.splitDistances g loc .Whole]
       else ((childValues.filter (fun child =>
              (match child with
               | Child.TopLeft => (recurse env tl (loc.split .TopLeft) ci).2
               | Child.TopRight => (recurse env tr (loc.split .TopRight) ci).2
               | Child.BottomLeft => (recurse env bl (loc.split .BottomLeft) ci).2
               | Child.BottomRight => (recurse env br (loc.split .BottomRight) ci).2
              ).is_not_selected)).map
             (fun child => addVisible env.splitDistances g loc (.Child child)))) ∧
    (∀ child : Child,
      addVisible env.splitDistances g loc (.Child child) ∈
        ((childValues.filter (fun c =>
              (match c with
               | Child.TopLeft => (recurse env tl (loc.split .TopLeft) ci).2
               | Child.TopRight => (recurse env tr (loc.split .TopRight) ci).2
               | Child.BottomLeft => (recurse env bl (loc.split .BottomLeft) ci).2
               | Child.BottomRight => (recurse env br (loc.split .BottomRight) ci).2
              ).is_not_selected)).map
             (fun c => addVisible env.splitDistances g loc (.Child c))) ↔
      (match child with
       | Child.TopLeft => (recurse env tl (loc.split .TopLeft) ci).2
       | Child.TopRight => (recurse env tr (loc.split .TopRight) ci).2
       | Child.BottomLeft => (recurse env bl (loc.split .BottomLeft) ci).2
       | Child.BottomRight => (recurse env br (loc.split .BottomRight) ci).2
      ).is_not_selected = true) ∧
    LODSelectResult.is_not_selected .OutOfFrustum = false ∧
    LODSelectResult.is_not_selected .Undefined = true ∧
    LODSelectResult.is_not_selected .OutOfRange = true ∧
    LODSelectResult.is_not_selected .Pending = true ∧
    LODSelectResult.is_not_selected .Selected = false := by
  refine ⟨?_, ?_, rfl, rfl, rfl, rfl, rfl⟩
  · simp only [recurse, hphase]
    simp [childValues, List.append_assoc]
    rw [apply_ite Prod.fst]
    split_ifs with h <;> simp
  · intro child
    constructor
    · intro hmem
      obtain ⟨c, hc, heq⟩ := List.mem_map.mp hmem
      have hcc : c = child := by
        have := congrArg VisibleNode.part heq
        simp only [addVisible] at this
        cases c <;> cases child <;> simp_all
      subst hcc
      exact (List.mem_filter.mp hc).2
    · intro hns
      refine List.mem_map.mpr ⟨child, List.mem_filter.mpr ⟨?_, hns⟩, rfl⟩
      cases child <;> simp [childValues]

/-- Witness for C1 at a concrete configuration: a root in split phase
with four Pending children (every result `Pending`, hence
`is_not_selected`), where the whole node is emitted. -/
theorem c1_quadrant_fill_witness :
    (classifyGeomNode ⟨fun _ => Containment.Intersects, fun _ => false,
        fun _ _ => true, [4, 2]⟩ 0 ⟨Face.Front, 0, 0, 1, 0⟩ false
      = GeomPhase.splitPhase false) ∧
    (recurse ⟨fun _ => Containment.Intersects, fun _ => false,
        fun _ _ => true, [4, 2]⟩
      (.branch (.withGeometry 0) (.leaf .pending) (.leaf .pending)
        (.leaf .pending) (.leaf .pending))
      ⟨Face.Front, 0, 0, 1, 0⟩ false).1 =
      (recurse ⟨fun _ => Containment.Intersects, fun _ => false,
          fun _ _ => true, [4, 2]⟩ (QuadTree.leaf SelNode.pending)
        (PatchLocation.split ⟨Face.Front, 0, 0, 1, 0⟩ .TopLeft) false).1 ++
      (recurse ⟨fun _ => Containment.Intersects, fun _ => false,
          fun _ _ => true, [4, 2]⟩ (QuadTree.leaf SelNode.pending)
        (PatchLocation.split ⟨Face.Front, 0, 0, 1, 0⟩ .TopRight) false).1 ++
      (recurse ⟨fun _ => Containment.Intersects, fun _ => false,
          fun _ _ => true, [4, 2]⟩ (QuadTree.leaf SelNode.pending)
        (PatchLocation.split ⟨Face.Front, 0, 0, 1, 0⟩ .BottomLeft) false).1 ++
      (recurse ⟨fun _ => Containment.Intersects, fun _ => false,
          fun _ _ => true, [4, 2]⟩ (QuadTree.leaf SelNode.pending)
        (PatchLocation.split ⟨Face.Front, 0, 0, 1, 0⟩ .BottomRight) false).1 ++
      (if ((recurse ⟨fun _ => Containment.Intersects, fun _ => false,
              fun _ _ => true, [4, 2]⟩ (QuadTree.leaf SelNode.pending)
            (PatchLocation.split ⟨Face.Front, 0, 0, 1, 0⟩ .TopLeft) false).2.is_not_selected &&
           (((recurse ⟨fun _ => Containment.Intersects, fun _ => false,
              fun _ _ => true, [4, 2]⟩ (QuadTree.leaf SelNode.pending)
            (PatchLocation.split ⟨Face.Front, 0, 0, 1, 0⟩ .TopRight) false).2.is_not_selected) &&
            (((recurse ⟨fun _ => Containment.Intersects, fun _ => false,
              fun _ _ => true, [4, 2]⟩ (QuadTree.leaf SelNode.pending)
            (PatchLocation.split ⟨Face.Front, 0, 0, 1, 0⟩ .BottomLeft) false).2.is_not_selected) &&
             ((recurse ⟨fun _ => Containment.Intersects, fun _ => false,
              fun _ _ => true, [4, 2]⟩ (QuadTree.leaf SelNode.pending)
            (PatchLocation.split ⟨Face.Front, 0, 0, 1, 0⟩ .BottomRight) false).2.is_not_selected)))) = true
       then [addVisible [4, 2] 0 ⟨Face.Front, 0, 0, 1, 0⟩ .Whole]
       else ((childValues.filter (fun child =>
              (match child with
               | Child.TopLeft => (recurse ⟨fun _ => Containment.Intersects, fun _ => false,
                    fun _ _ => true, [4, 2]⟩ (QuadTree.leaf SelNode.pending)
                  (PatchLocation.split ⟨Face.Front, 0, 0, 1, 0⟩ .TopLeft) false).2
               | Child.TopRight => (recurse ⟨fun _ => Containment.Intersects, fun _ => false,
                    fun _ _ => true, [4, 2]⟩ (QuadTree.leaf SelNode.pending)
                  (PatchLocation.split ⟨Face.Front, 0, 0, 1, 0⟩ .TopRight) false).2
               | Child.BottomLeft => (recurse ⟨fun _ => Containment.Intersects, fun _ => false,
                    fun _ _ => true, [4, 2]⟩ (QuadTree.leaf SelNode.pending)
                  (PatchLocation.split ⟨Face.Front, 0, 0, 1, 0⟩ .BottomLeft) false).2
               | Child.BottomRight => (recurse ⟨fun _ => Containment.Intersects, fun _ => false,
                    fun _ _ => true, [4, 2]⟩ (QuadTree.leaf SelNode.pending)
                  (PatchLocation.split ⟨Face.Front, 0, 0, 1, 0⟩ .BottomRight) false).2
              ).is_not_selected)).map
             (fun child => addVisible [4, 2] 0 ⟨Face.Front, 0, 0, 1, 0⟩ (.Child child)))) :=
  ⟨by decide,
   (c1_quadrant_fill ⟨fun _ => Containment.Intersects, fun _ => false,
      fun _ _ => true, [4, 2]⟩ 0 (.leaf .pending) (.leaf .pending) (.leaf .pending)
      (.leaf .pending) ⟨Face.Front, 0, 0, 1, 0⟩ false false (by decide)).1⟩

theorem addVisible_morphRange (sd : List ℚ) (g : Nat) (loc : PatchLocation)
    (part : VisibleNodePart) :
    (addVisible sd g loc part).morph_range
      = morphRangeSpec sd (addVisible sd g loc part).lod_level := rfl

/-- C2 counterexample: with `split_distances = [4, 2]`, a contribution
emitted at level 1 carries `t1 = 4 = splitDistance[0]` but
`t0 = 2 + (4 - 2)·0.9 = 3.8 = 19/5`, not `t1·0.9 = 3.6`. -/
theorem c2_morph_range_counterexample :
    ∃ v ∈ (recurse
        ⟨fun _ => Containment.Intersects, fun _ => false, fun _ _ => true, [4, 2]⟩
        (.branch (.withGeometry 0) (.leaf (.withGeometry 1)) (.leaf (.withGeometry 2))
          (.leaf (.withGeometry 3)) (.leaf (.withGeometry 4)))
        ⟨Face.Front, 0, 0, 1, 0⟩ false).1,
      v.lod_level = 1 ∧ v.morph_range.2 = 4 ∧ v.morph_range.1 = 19 / 5 ∧
      ¬ v.morph_range.1 = (9 / 10) * v.morph_range.2 := by
  simp [recurse, classifyGeomNode, addVisible, childValues, PatchLocation.split,
    LODSelectResult.is_not_selected]
  norm_num

/-- C2 (amended): every contribution emitted by the LOD selector at
level `L` carries `morphRange = (t0, t1)` where `t1 = splitDistance[L-1]`
(falling back to `splitDistance[L]` when `L = 0` or `L - 1` is out of
bounds) and `t0 = splitDistance[L] + (t1 - splitDistance[L])·0.9` — 90%
of the way from `splitDistance[L]` (0 when out of bounds) up to `t1`,
not `t1·0.9`.  In particular `t0 = t1` at level 0. -/
theorem c2_morph_range_formula (env : LODEnv) (t : QuadTree SelNode)
    (loc : PatchLocation) (pcif : Bool) :
    ∀ v ∈ (recurse env t loc pcif).1,
      v.morph_range = morphRangeSpec env.splitDistances v.lod_level := by
  induction t generalizing loc pcif with
  | leaf c =>
      intro v hv
      cases c with
      | pending => simp [recurse] at hv
      | withGeometry g =>
          simp only [recurse] at hv
          cases hc : classifyGeomNode env g loc pcif with
          | outOfFrustum => rw [hc] at hv; simp at hv
          | outOfRange => rw [hc] at hv; simp at hv
          | splitPhase ci =>
              rw [hc] at hv
              simp at hv
              subst hv
              rfl
          | wholePhase =>
              rw [hc] at hv
              simp at hv
              subst hv
              rfl
  | branch c tl tr bl br ihtl ihtr ihbl ihbr =>
      intro v hv
      cases c with
      | pending => simp [recurse] at hv
      | withGeometry g =>
          simp only [recurse] at hv
          cases hc : classifyGeomNode env g loc pcif with
          | outOfFrustum => rw [hc] at hv; simp at hv
          | outOfRange => rw [hc] at hv; simp at hv
          | wholePhase =>
              rw [hc] at hv
              simp at hv
              subst hv
              rfl
          | splitPhase ci =>
              rw [hc] at hv
              rw [apply_ite Prod.fst] at hv
              split_ifs at hv
              · simp only [List.mem_append, List.mem_singleton] at hv
                rcases hv with (((hv | hv) | hv) | hv) | hv
                · exact ihtl (loc.split .TopLeft) ci v hv
                · exact ihtr (loc.split .TopRight) ci v hv
                · exact ihbl (loc.split .BottomLeft) ci v hv
                · exact ihbr (loc.split .BottomRight) ci v hv
                · subst hv; rfl
              · simp only [List.mem_append] at hv
                rcases hv with (((hv | hv) | hv) | hv) | hv
                · exact ihtl (loc.split .TopLeft) ci v hv
                · exact ihtr (loc.split .TopRight) ci v hv
                · exact ihbl (loc.split .BottomLeft) ci v hv
                · exact ihbr (loc.split .BottomRight) ci v hv
                · obtain ⟨child, _, heq⟩ := List.mem_map.mp hv
                  subst heq
                  rfl
              · simp only [List.mem_append] at hv
                rcases hv with (((hv | hv) | hv) | hv) | hv
                · exact ihtl (loc.split .TopLeft) ci v hv
                · exact ihtr (loc.split .TopRight) ci v hv
                · exact ihbl (loc.split .BottomLeft) ci v hv
                · exact ihbr (loc.split .BottomRight) ci v hv
                · obtain ⟨child, _, heq⟩ := List.mem_map.mp hv
                  subst heq
                  rfl

/-- Witness for C2 at a concrete configuration: the level-1 whole
contribution of the top-left child. -/
theorem c2_morph_range_formula_witness :
    addVisible [4, 2] 1 (PatchLocation.split ⟨Face.Front, 0, 0, 1, 0⟩ .TopLeft)
        VisibleNodePart.Whole ∈
      (recurse
        ⟨fun _ => Containment.Intersects, fun _ => false, fun _ _ => true, [4, 2]⟩
        (.branch (.withGeometry 0) (.leaf (.withGeometry 1)) (.leaf (.withGeometry 2))
          (.leaf (.withGeometry 3)) (.leaf (.withGeometry 4)))
        ⟨Face.Front, 0, 0, 1, 0⟩ false).1 ∧
    (addVisible [4, 2] 1 (PatchLocation.split ⟨Face.Front, 0, 0, 1, 0⟩ .TopLeft)
        VisibleNodePart.Whole).morph_range =
      morphRangeSpec [4, 2]
        (addVisible [4, 2] 1 (PatchLocation.split ⟨Face.Front, 0, 0, 1, 0⟩ .TopLeft)
          VisibleNodePart.Whole).lod_level := by
  have hmem : addVisible [4, 2] 1
      (PatchLocation.split ⟨Face.Front, 0, 0, 1, 0⟩ .TopLeft) VisibleNodePart.Whole ∈
      (recurse
        ⟨fun _ => Containment.Intersects, fun _ => false, fun _ _ => true, [4, 2]⟩
        (.branch (.withGeometry 0) (.leaf (.withGeometry 1)) (.leaf (.withGeometry 2))
          (.leaf (.withGeometry 3)) (.leaf (.withGeometry 4)))
        ⟨Face.Front, 0, 0, 1, 0⟩ false).1 := by
    simp [recurse, classifyGeomNode, addVisible, childValues, PatchLocation.split,
      LODSelectResult.is_not_selected]
  exact ⟨hmem,
    c2_morph_range_formula
      ⟨fun _ => Containment.Intersects, fun _ => false, fun _ _ => true, [4, 2]⟩
      (.branch (.withGeometry 0) (.leaf (.withGeometry 1)) (.leaf (.withGeometry 2))
        (.leaf (.withGeometry 3)) (.leaf (.withGeometry 4)))
      ⟨Face.Front, 0, 0, 1, 0⟩ false _ hmem⟩

/-- Witness for C7: camera at `(0,0,2)`, radius 1; the antipodal surface
point `(0,0,-1)` is `Inside` the horizon cone, and `(0,0,3/2)` (between
the camera and the surface) is `Outside`. -/
theorem c7_horizon_cone_classification_witness :
    ((0 : ℝ) < 1 ∧ (1 : ℝ) * 1 < (V3.mk 0 0 2).normSq ∧
     (V3.mk 0 0 (-1)).normSq = 1 * 1 ∧ (V3.mk 0 0 (-1)).dot (V3.mk 0 0 2) < 0 ∧
     (0 : ℝ) < 3 / 4 ∧ (3 / 4 : ℝ) < 1 ∧
     (1 : ℝ) * 1 < (3 / 4) * (3 / 4) * (V3.mk 0 0 2).normSq) ∧
    (Cone.new (V3.mk 0 0 2) 1).classifyPoint (V3.mk 0 0 (-1)) = Containment.Inside ∧
    (Cone.new (V3.mk 0 0 2) 1).classifyPoint (V3.smul (3 / 4) (V3.mk 0 0 2))
      = Containment.Outside := by
  have hR : (0 : ℝ) < 1 := by norm_num
  have hD : (1 : ℝ) * 1 < (V3.mk 0 0 2).normSq := by
    norm_num [V3.normSq, V3.dot]
  have h := c7_horizon_cone_classification (V3.mk 0 0 2) 1 hR hD
  refine ⟨⟨hR, hD, ?_, ?_, ?_, ?_, ?_⟩,
    h.1 (V3.mk 0 0 (-1)) ?_ ?_, h.2 (3 / 4) ?_ ?_ ?_⟩
  · norm_num [V3.normSq, V3.dot]
  · norm_num [V3.dot]
  · norm_num
  · norm_num
  · norm_num [V3.normSq, V3.dot]
  · norm_num [V3.normSq, V3.dot]
  · norm_num [V3.dot]
  · norm_num
  · norm_num
  · norm_num [V3.normSq, V3.dot]

/-- Witness for C9: the coordinate `(0, 0)` on `Front` with `size = 2`
and `k = -1` (an equatorial crossing onto `Left` and back, plus in-face
moves with `k = 1`). -/
theorem c9_roundtrip_amended_witness :
    ((0 : ℤ) ≤ 0 ∧ (0 : ℤ) < 2 ∧ (0 : ℤ) ≤ 0 ∧ (0 : ℤ) < 2 ∧
     (-2 : ℤ) ≤ -1 ∧ (-1 : ℤ) ≤ 2) ∧
    (CubeCoord.add_dx (CubeCoord.add_dx ⟨0, 0, .Front⟩ (-1) 2) (-(-1)) 2
      = ⟨0, 0, .Front⟩) ∧
    (CubeCoord.add_dy (CubeCoord.add_dy ⟨0, 0, .Front⟩ 1 2) (-1) 2
      = ⟨0, 0, .Front⟩) :=
  ⟨by norm_num,
   (c9_roundtrip_amended ⟨0, 0, .Front⟩ (-1) 2 (by norm_num) (by norm_num)
      (by norm_num) (by norm_num) (by norm_num) (by norm_num)).1 (by decide),
   (c9_roundtrip_amended ⟨0, 0, .Front⟩ 1 2 (by norm_num) (by norm_num)
      (by norm_num) (by norm_num) (by norm_num) (by norm_num)).2.2
      (by norm_num) (by norm_num)⟩

/-- Witness for C3: level 1 out-of-frustum (priority 1) versus level 3
in-frustum (priority 515); a singleton queue is popped, and an
all-cancelled queue yields nothing. -/
theorem c3_priority_encoding_and_dequeue_witness :
    pendingPriority 1 false < pendingPriority 3 true ∧
    ((⟨5, 7⟩ : Request) ∈ ([⟨5, 7⟩] : List Request) ∧ (7 : Nat) ≠ 0 ∧
      ∀ r' ∈ ([⟨5, 7⟩] : List Request), r'.priority ≠ 0 → r'.priority ≤ 7) ∧
    (dequeue [⟨9, 0⟩] ).1 = none := by
  refine ⟨c3_priority_encoding_and_dequeue.1 3 1 (by decide) (by decide), ?_, ?_⟩
  · exact c3_priority_encoding_and_dequeue.2.1 [⟨5, 7⟩] ⟨5, 7⟩
      (by simp [dequeue, List.mergeSort_singleton])
  · exact c3_priority_encoding_and_dequeue.2.2.2 [⟨9, 0⟩] (by simp)

theorem getNode_append {α : Type} (t : QuadTree α) (p r : List Child) :
    t.getNode (p ++ r) = (t.getNode p).bind (fun u => u.getNode r) := by
  induction p generalizing t with
  | nil => simp [QuadTree.getNode]
  | cons ch p ih =>
      cases t with
      | leaf c => simp [QuadTree.getNode]
      | branch c tl tr bl br =>
          cases ch <;> simpa [QuadTree.getNode] using ih _

theorem setNode_getNode_append {α : Type} (t : QuadTree α) (p r : List Child)
    (u sub : QuadTree α) (h : t.getNode p = some sub) :
    (t.setNode p u).getNode (p ++ r) = u.getNode r := by
  induction p generalizing t with
  | nil => simp [QuadTree.setNode]
  | cons ch p ih =>
      cases t with
      | leaf c => simp [QuadTree.getNode] at h
      | branch c tl tr bl br =>
          cases ch <;> simp only [QuadTree.getNode, QuadTree.setNode] at h ⊢ <;>
            exact ih _ h

theorem setNode_getNode_self {α : Type} (t : QuadTree α) (p : List Child)
    (u sub : QuadTree α) (h : t.getNode p = some sub) :
    (t.setNode p u).getNode p = some u := by
  have h2 := setNode_getNode_append t p [] u sub h
  simpa [QuadTree.getNode] using h2

theorem setNode_content_of_not_leads {α : Type} (t : QuadTree α) (p q : List Child)
    (u : QuadTree α) (h : ¬ pathLeads p q) :
    ((t.setNode p u).getNode q).map QuadTree.content
      = (t.getNode q).map QuadTree.content := by
  induction p generalizing t q with
  | nil => exact absurd ⟨q, rfl⟩ h
  | cons ch p ih =>
      cases t with
      | leaf c => simp [QuadTree.setNode]
      | branch c tl tr bl br =>
          cases q with
          | nil => cases ch <;> simp [QuadTree.setNode, QuadTree.getNode, QuadTree.content]
          | cons ch2 q2 =>
              by_cases hcc : ch = ch2
              · subst hcc
                have h2 : ¬ pathLeads p q2 := by
                  rintro ⟨r, hr⟩
                  exact h ⟨r, by simp [hr]⟩
                cases ch <;> simp only [QuadTree.setNode, QuadTree.getNode] <;>
                  exact ih _ _ h2
              · cases ch <;> cases ch2 <;>
                  first
                  | exact absurd rfl hcc
                  | simp [QuadTree.setNode, QuadTree.getNode]

theorem withContent_content {α : Type} (t : QuadTree α) (c : α) :
    (t.withContent c).content = c := by
  cases t <;> rfl

theorem withContent_getNode_cons {α : Type} (t : QuadTree α) (c : α)
    (ch : Child) (r : List Child) :
    (t.withContent c).getNode (ch :: r) = t.getNode (ch :: r) := by
  cases t <;> cases ch <;> rfl

theorem branch_content_exists {α : Type} (c : α) (tl tr bl br : QuadTree α) (n : α) :
    (∃ q, ((QuadTree.branch c tl tr bl br).getNode q).map QuadTree.content = some n) ↔
      (c = n ∨ (∃ q, (tl.getNode q).map QuadTree.content = some n) ∨
        (∃ q, (tr.getNode q).map QuadTree.content = some n) ∨
        (∃ q, (bl.getNode q).map QuadTree.content = some n) ∨
        (∃ q, (br.getNode q).map QuadTree.content = some n)) := by
  constructor
  · rintro ⟨q, hq⟩
    cases q with
    | nil =>
        left
        simpa [QuadTree.getNode, QuadTree.content] using hq
    | cons ch q2 =>
        right
        cases ch
        · exact Or.inl ⟨q2, by simpa [QuadTree.getNode] using hq⟩
        · exact Or.inr (Or.inl ⟨q2, by simpa [QuadTree.getNode] using hq⟩)
        · exact Or.inr (Or.inr (Or.inl ⟨q2, by simpa [QuadTree.getNode] using hq⟩))
        · exact Or.inr (Or.inr (Or.inr ⟨q2, by simpa [QuadTree.getNode] using hq⟩))
  · rintro (rfl | ⟨q, hq⟩ | ⟨q, hq⟩ | ⟨q, hq⟩ | ⟨q, hq⟩)
    · exact ⟨[], by simp [QuadTree.getNode, QuadTree.content]⟩
    · exact ⟨Child.TopLeft :: q, by simpa [QuadTree.getNode] using hq⟩
    · exact ⟨Child.TopRight :: q, by simpa [QuadTree.getNode] using hq⟩
    · exact ⟨Child.BottomLeft :: q, by simpa [QuadTree.getNode] using hq⟩
    · exact ⟨Child.BottomRight :: q, by simpa [QuadTree.getNode] using hq⟩

theorem branch_content_exists_ne_nil {α : Type} (c : α) (tl tr bl br : QuadTree α)
    (n : α) :
    (∃ q, q ≠ [] ∧
      ((QuadTree.branch c tl tr bl br).getNode q).map QuadTree.content = some n) ↔
      ((∃ q, (tl.getNode q).map QuadTree.content = some n) ∨
        (∃ q, (tr.getNode q).map QuadTree.content = some n) ∨
        (∃ q, (bl.getNode q).map QuadTree.content = some n) ∨
        (∃ q, (br.getNode q).map QuadTree.content = some n)) := by
  constructor
  · rintro ⟨q, hne, hq⟩
    cases q with
    | nil => exact absurd rfl hne
    | cons ch q2 =>
        cases ch
        · exact Or.inl ⟨q2, by simpa [QuadTree.getNode] using hq⟩
        · exact Or.inr (Or.inl ⟨q2, by simpa [QuadTree.getNode] using hq⟩)
        · exact Or.inr (Or.inr (Or.inl ⟨q2, by simpa [QuadTree.getNode] using hq⟩))
        · exact Or.inr (Or.inr (Or.inr ⟨q2, by simpa [QuadTree.getNode] using hq⟩))
  · rintro (⟨q, hq⟩ | ⟨q, hq⟩ | ⟨q, hq⟩ | ⟨q, hq⟩)
    · exact ⟨Child.TopLeft :: q, by simp, by simpa [QuadTree.getNode] using hq⟩
    · exact ⟨Child.TopRight :: q, by simp, by simpa [QuadTree.getNode] using hq⟩
    · exact ⟨Child.BottomLeft :: q, by simp, by simpa [QuadTree.getNode] using hq⟩
    · exact ⟨Child.BottomRight :: q, by simp, by simpa [QuadTree.getNode] using hq⟩

theorem removeFace_cancelled_iff (t : QuadTree RNode) (id : Nat) :
    id ∈ (removeFace t).2 ↔
      ∃ q, (t.getNode q).map QuadTree.content = some (RNode.pending id) := by
  induction t with
  | leaf c =>
      cases c with
      | pending id2 =>
          simp only [removeFace, List.mem_singleton]
          constructor
          · rintro rfl
            exact ⟨[], by simp [QuadTree.getNode, QuadTree.content]⟩
          · rintro ⟨q, hq⟩
            cases q with
            | nil =>
                simp [QuadTree.getNode, QuadTree.content] at hq
                exact hq.symm
            | cons a b => simp [QuadTree.getNode] at hq
      | withGeometry slot =>
          simp only [removeFace]
          constructor
          · intro h
            simp at h
          · rintro ⟨q, hq⟩
            cases q with
            | nil => simp [QuadTree.getNode, QuadTree.content] at hq
            | cons a b => simp [QuadTree.getNode] at hq
  | branch c tl tr bl br ihtl ihtr ihbl ihbr =>
      rw [branch_content_exists]
      cases c with
      | pending id2 =>
          simp only [removeFace, List.mem_append, List.mem_singleton]
          rw [ihtl, ihtr, ihbl, ihbr]
          constructor
          · rintro ((((h | h) | h) | h) | rfl)
            · exact Or.inr (Or.inl h)
            · exact Or.inr (Or.inr (Or.inl h))
            · exact Or.inr (Or.inr (Or.inr (Or.inl h)))
            · exact Or.inr (Or.inr (Or.inr (Or.inr h)))
            · exact Or.inl rfl
          · rintro (heq | h | h | h | h)
            · exact Or.inr (by injection heq with h2; exact h2.symm)
            · exact Or.inl (Or.inl (Or.inl (Or.inl h)))
            · exact Or.inl (Or.inl (Or.inl (Or.inr h)))
            · exact Or.inl (Or.inl (Or.inr h))
            · exact Or.inl (Or.inr h)
      | withGeometry slot =>
          simp only [removeFace, List.mem_append]
          rw [ihtl, ihtr, ihbl, ihbr]
          constructor
          · rintro (((h | h) | h) | h)
            · exact Or.inr (Or.inl h)
            · exact Or.inr (Or.inr (Or.inl h))
            · exact Or.inr (Or.inr (Or.inr (Or.inl h)))
            · exact Or.inr (Or.inr (Or.inr (Or.inr h)))
          · rintro (heq | h | h | h | h)
            · exact absurd heq (by simp)
            · exact Or.inl (Or.inl (Or.inl h))
            · exact Or.inl (Or.inl (Or.inr h))
            · exact Or.inl (Or.inr h)
            · exact Or.inr h

theorem removeFace_released_iff (t : QuadTree RNode) (slot : Nat) :
    slot ∈ (removeFace t).1 ↔
      ∃ q, (t.getNode q).map QuadTree.content = some (RNode.withGeometry slot) := by
  induction t with
  | leaf c =>
      cases c with
      | pending id2 =>
          simp only [removeFace]
          constructor
          · intro h
            simp at h
          · rintro ⟨q, hq⟩
            cases q with
            | nil => simp [QuadTree.getNode, QuadTree.content] at hq
            | cons a b => simp [QuadTree.getNode] at hq
      | withGeometry slot2 =>
          simp only [removeFace, List.mem_singleton]
          constructor
          · rintro rfl
            exact ⟨[], by simp [QuadTree.getNode, QuadTree.content]⟩
          · rintro ⟨q, hq⟩
            cases q with
            | nil =>
                simp [QuadTree.getNode, QuadTree.content] at hq
                exact hq.symm
            | cons a b => simp [QuadTree.getNode] at hq
  | branch c tl tr bl br ihtl ihtr ihbl ihbr =>
      rw [branch_content_exists]
      cases c with
      | withGeometry slot2 =>
          simp only [removeFace, List.mem_append, List.mem_singleton]
          rw [ihtl, ihtr, ihbl, ihbr]
          constructor
          · rintro ((((h | h) | h) | h) | rfl)
            · exact Or.inr (Or.inl h)
            · exact Or.inr (Or.inr (Or.inl h))
            · exact Or.inr (Or.inr (Or.inr (Or.inl h)))
            · exact Or.inr (Or.inr (Or.inr (Or.inr h)))
            · exact Or.inl rfl
          · rintro (heq | h | h | h | h)
            · exact Or.inr (by injection heq with h2; exact h2.symm)
            · exact Or.inl (Or.inl (Or.inl (Or.inl h)))
            · exact Or.inl (Or.inl (Or.inl (Or.inr h)))
            · exact Or.inl (Or.inl (Or.inr h))
            · exact Or.inl (Or.inr h)
      | pending id2 =>
          simp only [removeFace, List.mem_append]
          rw [ihtl, ihtr, ihbl, ihbr]
          constructor
          · rintro (((h | h) | h) | h)
            · exact Or.inr (Or.inl h)
            · exact Or.inr (Or.inr (Or.inl h))
            · exact Or.inr (Or.inr (Or.inr (Or.inl h)))
            · exact Or.inr (Or.inr (Or.inr (Or.inr h)))
          · rintro (heq | h | h | h | h)
            · exact absurd heq (by simp)
            · exact Or.inl (Or.inl (Or.inl h))
            · exact Or.inl (Or.inl (Or.inr h))
            · exact Or.inl (Or.inr h)
            · exact Or.inr h

theorem mergeNode_tree (t : QuadTree RNode) :
    (mergeNode t).1 = QuadTree.leaf t.content := by
  cases t <;> rfl

theorem mergeNode_cancelled_iff (t : QuadTree RNode) (id : Nat) :
    id ∈ (mergeNode t).2.2 ↔
      ∃ q, q ≠ [] ∧ (t.getNode q).map QuadTree.content = some (RNode.pending id) := by
  cases t with
  | leaf c =>
      simp only [mergeNode]
      constructor
      · intro h
        simp at h
      · rintro ⟨q, hne, hq⟩
        cases q with
        | nil => exact absurd rfl hne
        | cons a b => simp [QuadTree.getNode] at hq
  | branch c tl tr bl br =>
      rw [branch_content_exists_ne_nil]
      simp only [mergeNode, List.mem_append]
      rw [removeFace_cancelled_iff, removeFace_cancelled_iff,
        removeFace_cancelled_iff, removeFace_cancelled_iff]
      constructor
      · rintro (((h | h) | h) | h)
        · exact Or.inl h
        · exact Or.inr (Or.inl h)
        · exact Or.inr (Or.inr (Or.inl h))
        · exact Or.inr (Or.inr (Or.inr h))
      · rintro (h | h | h | h)
        · exact Or.inl (Or.inl (Or.inl h))
        · exact Or.inl (Or.inl (Or.inr h))
        · exact Or.inl (Or.inr h)
        · exact Or.inr h

theorem mergeNode_released_iff (t : QuadTree RNode) (slot : Nat) :
    slot ∈ (mergeNode t).2.1 ↔
      ∃ q, q ≠ [] ∧ (t.getNode q).map QuadTree.content = some (RNode.withGeometry slot) := by
  cases t with
  | leaf c =>
      simp only [mergeNode]
      constructor
      · intro h
        simp at h
      · rintro ⟨q, hne, hq⟩
        cases q with
        | nil => exact absurd rfl hne
        | cons a b => simp [QuadTree.getNode] at hq
  | branch c tl tr bl br =>
      rw [branch_content_exists_ne_nil]
      simp only [mergeNode, List.mem_append]
      rw [removeFace_released_iff, removeFace_released_iff,
        removeFace_released_iff, removeFace_released_iff]
      constructor
      · rintro (((h | h) | h) | h)
        · exact Or.inl h
        · exact Or.inr (Or.inl h)
        · exact Or.inr (Or.inr (Or.inl h))
        · exact Or.inr (Or.inr (Or.inr h))
      · rintro (h | h | h | h)
        · exact Or.inl (Or.inl (Or.inl h))
        · exact Or.inl (Or.inl (Or.inr h))
        · exact Or.inl (Or.inr h)
        · exact Or.inr h

theorem get?_some_lt_length {α : Type} {l : List α} {i : Nat} {a : α}
    (h : l.get? i = some a) : i < l.length := by
  by_contra hc
  rw [List.get?_eq_none.mpr (le_of_not_lt hc)] at h
  exact absurd h (by simp)

theorem contentAt_set_other (s s2 : RState) (f f2 : Nat) (u : QuadTree RNode)
    (hfaces : s2.faces = s.faces.set f u)
    (hne : f2 ≠ f) (q : List Child) :
    contentAt s2 f2 q = contentAt s f2 q := by
  simp only [contentAt, hfaces]
  rw [List.get?_set_ne _ _ (fun heq => hne heq.symm)]

theorem contentAt_set_not_leads (s s2 : RState) (f : Nat) (root u : QuadTree RNode)
    (p q : List Child)
    (hfaces : s2.faces = s.faces.set f (root.setNode p u))
    (hf : s.faces.get? f = some root) (h : ¬ pathLeads p q) :
    contentAt s2 f q = contentAt s f q := by
  simp only [contentAt, hfaces]
  rw [List.get?_set_eq_of_lt _ (get?_some_lt_length hf), hf]
  simp only [Option.some_bind]
  exact setNode_content_of_not_leads root p q u h

theorem contentAt_set_append (s s2 : RState) (f : Nat) (root u sub : QuadTree RNode)
    (p r : List Child)
    (hfaces : s2.faces = s.faces.set f (root.setNode p u))
    (hf : s.faces.get? f = some root) (hp : root.getNode p = some sub) :
    contentAt s2 f (p ++ r) = (u.getNode r).map QuadTree.content := by
  simp only [contentAt, hfaces]
  rw [List.get?_set_eq_of_lt _ (get?_some_lt_length hf)]
  simp only [Option.some_bind]
  rw [setNode_getNode_append root p r u sub hp]

theorem contentAt_set_self (s s2 : RState) (f : Nat) (root u sub : QuadTree RNode)
    (p : List Child) (hfaces : s2.faces = s.faces.set f (root.setNode p u))
    (hf : s.faces.get? f = some root) (hp : root.getNode p = some sub) :
    contentAt s2 f p = some u.content := by
  have h2 := contentAt_set_append s s2 f root u sub p [] hfaces hf hp
  rw [List.append_nil] at h2
  rw [h2]
  cases u <;> simp [QuadTree.getNode, QuadTree.content]

theorem contentAt_eq (s : RState) (f : Nat) (root sub : QuadTree RNode) (p : List Child)
    (hf : s.faces.get? f = some root) (hp : root.getNode p = some sub) :
    contentAt s f p = some sub.content := by
  simp only [contentAt]
  rw [hf]
  simp [hp]

theorem contentAt_append (s : RState) (f : Nat) (root sub : QuadTree RNode)
    (p r : List Child)
    (hf : s.faces.get? f = some root) (hp : root.getNode p = some sub) :
    contentAt s f (p ++ r) = (sub.getNode r).map QuadTree.content := by
  simp only [contentAt]
  rw [hf]
  simp only [Option.some_bind]
  rw [getNode_append]
  simp [hp]

theorem pendingInv_splitAt (s : RState) (f : Nat) (p : List Child) (lod : Nat)
    (h : PendingInv s) : PendingInv (splitAt s f p lod) := by
  have horig : PendingInv s := h
  obtain ⟨ha, hb, hc, hd⟩ := h
  unfold splitAt
  split
  · exact horig
  · rename_i root hf
    split
    · rename_i slot hp
      -- the real split: four fresh Pending children are attached
      refine ⟨?_, ?_, ?_, ?_⟩
      · -- (a) every entry points at a live Pending node with its id
        intro e he
        simp only [List.mem_append, List.mem_cons, List.not_mem_nil, or_false] at he
        rcases he with he | rfl | rfl | rfl | rfl
        · -- old entry: its address is untouched by the split
          have hold := ha e he
          by_cases hef : e.2.1 = f
          · subst hef
            rw [contentAt_set_not_leads s _ e.2.1 root _ p e.2.2 rfl hf]
            · exact hold
            · rintro ⟨r, hr⟩
              rw [hr] at hold
              rw [contentAt_append s e.2.1 root _ p r hf hp] at hold
              cases r with
              | nil => simp [QuadTree.getNode, QuadTree.content] at hold
              | cons a b => simp [QuadTree.getNode] at hold
          · rw [contentAt_set_other s _ f e.2.1 _ rfl hef]
            exact hold
        · rw [contentAt_set_append s _ f root _ _ p _ rfl hf hp]
          simp [QuadTree.getNode, QuadTree.content]
        · rw [contentAt_set_append s _ f root _ _ p _ rfl hf hp]
          simp [QuadTree.getNode, QuadTree.content]
        · rw [contentAt_set_append s _ f root _ _ p _ rfl hf hp]
          simp [QuadTree.getNode, QuadTree.content]
        · rw [contentAt_set_append s _ f root _ _ p _ rfl hf hp]
          simp [QuadTree.getNode, QuadTree.content]
      · -- (b) every Pending node is registered
        intro f2 q id hq
        by_cases hf2 : f2 = f
        · subst hf2
          by_cases hlead : pathLeads p q
          · obtain ⟨r, rfl⟩ := hlead
            rw [contentAt_set_append s _ f2 root _ _ p r rfl hf hp] at hq
            cases r with
            | nil => simp [QuadTree.getNode, QuadTree.content] at hq
            | cons c r2 =>
                cases r2 with
                | nil =>
                    cases c <;> simp [QuadTree.getNode, QuadTree.content] at hq <;>
                      (try subst hq) <;> simp
                | cons c2 r3 =>
                    cases c <;> simp [QuadTree.getNode] at hq
          · rw [contentAt_set_not_leads s _ f2 root _ p q rfl hf hlead] at hq
            have hmem := hb f2 q id hq
            simp only [List.mem_append]
            exact Or.inl hmem
        · rw [contentAt_set_other s _ f f2 _ rfl hf2] at hq
          have hmem := hb f2 q id hq
          simp only [List.mem_append]
          exact Or.inl hmem
      · -- (c) keys distinct
        show (List.map Prod.fst (s.pending ++ _)).Nodup
        simp only [List.map_append]
        rw [List.nodup_append]
        refine ⟨hc, by simp, ?_⟩
        intro a hmem hmem2
        obtain ⟨e, he, rfl⟩ := List.mem_map.mp hmem
        have hlt := hd e.2.1 e.2.2 e.1 (ha e he)
        simp at hmem2
        omega
      · -- (d) freshness
        intro f2 q id hq
        show id < s.nextId + 4
        by_cases hf2 : f2 = f
        · subst hf2
          by_cases hlead : pathLeads p q
          · obtain ⟨r, rfl⟩ := hlead
            rw [contentAt_set_append s _ f2 root _ _ p r rfl hf hp] at hq
            cases r with
            | nil => simp [QuadTree.getNode, QuadTree.content] at hq
            | cons c r2 =>
                cases r2 with
                | nil =>
                    cases c <;> simp [QuadTree.getNode, QuadTree.content] at hq <;> omega
                | cons c2 r3 =>
                    cases c <;> simp [QuadTree.getNode] at hq
          · rw [contentAt_set_not_leads s _ f2 root _ p q rfl hf hlead] at hq
            have := hd f2 q id hq
            omega
        · rw [contentAt_set_other s _ f f2 _ rfl hf2] at hq
          have := hd f2 q id hq
          omega
    · exact horig



theorem pendingInv_mergeAt (s : RState) (f : Nat) (p : List Child)
    (h : PendingInv s) : PendingInv (mergeAt s f p) := by
  have horig : PendingInv s := h
  obtain ⟨ha, hb, hc, hd⟩ := h
  unfold mergeAt
  split
  · exact horig
  · rename_i root hf
    split
    · exact horig
    · rename_i sub hp
      have hcanc : ∀ id, id ∈ (mergeNode sub).2.2 ↔
          ∃ r, r ≠ [] ∧ contentAt s f (p ++ r) = some (RNode.pending id) := by
        intro id
        rw [mergeNode_cancelled_iff]
        constructor
        · rintro ⟨r, hr, hq⟩
          refine ⟨r, hr, ?_⟩
          rw [contentAt_append s f root sub p r hf hp]
          exact hq
        · rintro ⟨r, hr, hq⟩
          rw [contentAt_append s f root sub p r hf hp] at hq
          exact ⟨r, hr, hq⟩
      have hkey_addr : ∀ e ∈ s.pending, e.1 ∈ (mergeNode sub).2.2 →
          ∃ r, r ≠ [] ∧ e = (e.1, f, p ++ r) := by
        intro e he hid
        obtain ⟨r, hr, hcont⟩ := (hcanc e.1).mp hid
        have hmem2 := hb f (p ++ r) e.1 hcont
        have heq : e = (e.1, f, p ++ r) :=
          List.inj_on_of_nodup_map hc he hmem2 rfl
        exact ⟨r, hr, heq⟩
      refine ⟨?_, ?_, ?_, ?_⟩
      · -- (a)
        intro e he
        have hef := List.mem_filter.mp he
        obtain ⟨hemem, hkeep⟩ := hef
        have hnotin : e.1 ∉ (mergeNode sub).2.2 := by simpa using hkeep
        have hold := ha e hemem
        by_cases hf2 : e.2.1 = f
        · subst hf2
          by_cases hlead : pathLeads p e.2.2
          · obtain ⟨r, hr⟩ := hlead
            cases r with
            | nil =>
                rw [List.append_nil] at hr
                have hsubc : sub.content = RNode.pending e.1 := by
                  have h1 := contentAt_eq s e.2.1 root sub p hf hp
                  rw [hr] at hold
                  rw [hold] at h1
                  exact (Option.some.inj h1).symm
                rw [hr]
                rw [contentAt_set_self s _ e.2.1 root (mergeNode sub).1 sub p rfl hf hp]
                rw [mergeNode_tree]
                exact congrArg some hsubc
            | cons c r2 =>
                exfalso
                apply hnotin
                apply (hcanc e.1).mpr
                refine ⟨c :: r2, by simp, ?_⟩
                rw [← hr]
                exact hold
          · rw [contentAt_set_not_leads s _ e.2.1 root _ p e.2.2 rfl hf hlead]
            exact hold
        · rw [contentAt_set_other s _ f e.2.1 _ rfl hf2]
          exact hold
      · -- (b)
        intro f2 q id hq
        by_cases hf2 : f2 = f
        · subst hf2
          by_cases hlead : pathLeads p q
          · obtain ⟨r, rfl⟩ := hlead
            rw [contentAt_set_append s _ f2 root (mergeNode sub).1 sub p r rfl hf hp,
              mergeNode_tree] at hq
            cases r with
            | nil =>
                have hq2 : sub.content = RNode.pending id := by
                  simpa [QuadTree.getNode] using hq
                have hcont : contentAt s f2 p = some (RNode.pending id) := by
                  rw [contentAt_eq s f2 root sub p hf hp, hq2]
                have hmem := hb f2 p id hcont
                apply List.mem_filter.mpr
                refine ⟨by simpa using hmem, ?_⟩
                simp only [decide_eq_true_eq]
                intro hin
                obtain ⟨r2, hr2, heq⟩ := hkey_addr (id, f2, p ++ []) (by simpa using hmem)
                  (by simpa using hin)
                have hpq : p ++ ([] : List Child) = p ++ r2 := congrArg (fun e => e.2.2) heq
                rw [List.append_nil] at hpq
                exact hr2 (List.append_right_eq_self.mp hpq.symm)
            | cons c r2 =>
                simp [QuadTree.getNode] at hq
          · rw [contentAt_set_not_leads s _ f2 root _ p q rfl hf hlead] at hq
            have hmem := hb f2 q id hq
            apply List.mem_filter.mpr
            refine ⟨hmem, ?_⟩
            simp only [decide_eq_true_eq]
            intro hin
            obtain ⟨r2, hr2, heq⟩ := hkey_addr (id, f2, q) hmem hin
            apply hlead
            exact ⟨r2, congrArg (fun e => e.2.2) heq⟩
        · rw [contentAt_set_other s _ f f2 _ rfl hf2] at hq
          have hmem := hb f2 q id hq
          apply List.mem_filter.mpr
          refine ⟨hmem, ?_⟩
          simp only [decide_eq_true_eq]
          intro hin
          obtain ⟨r2, hr2, heq⟩ := hkey_addr (id, f2, q) hmem hin
          exact hf2 (congrArg (fun e => e.2.1) heq)
      · -- (c)
        have hsub : ((s.pending.filter
              (fun e => e.1 ∉ (mergeNode sub).2.2)).map Prod.fst).Sublist
            (s.pending.map Prod.fst) :=
          (List.filter_sublist _).map _
        exact List.Nodup.sublist hsub hc
      · -- (d)
        intro f2 q id hq
        show id < s.nextId
        by_cases hf2 : f2 = f
        · subst hf2
          by_cases hlead : pathLeads p q
          · obtain ⟨r, rfl⟩ := hlead
            rw [contentAt_set_append s _ f2 root (mergeNode sub).1 sub p r rfl hf hp,
              mergeNode_tree] at hq
            cases r with
            | nil =>
                have hq2 : sub.content = RNode.pending id := by
                  simpa [QuadTree.getNode] using hq
                have hcont : contentAt s f2 p = some (RNode.pending id) := by
                  rw [contentAt_eq s f2 root sub p hf hp, hq2]
                exact hd f2 p id hcont
            | cons c r2 =>
                simp [QuadTree.getNode] at hq
          · rw [contentAt_set_not_leads s _ f2 root _ p q rfl hf hlead] at hq
            exact hd f2 q id hq
        · rw [contentAt_set_other s _ f f2 _ rfl hf2] at hq
          exact hd f2 q id hq


theorem getNode_nil {α : Type} (t : QuadTree α) : t.getNode [] = some t := by
  cases t <;> rfl

theorem pendingInv_receiveAt (s : RState) (id slot : Nat)
    (h : PendingInv s) : PendingInv (receiveAt s id slot) := by
  have horig : PendingInv s := h
  obtain ⟨ha, hb, hc, hd⟩ := h
  unfold receiveAt
  split
  · exact horig
  · rename_i e hfind
    split
    · exact horig
    · rename_i root hf
      split
      · exact horig
      · rename_i sub hp
        have he : e ∈ s.pending := List.mem_of_find?_eq_some hfind
        have heid : e.1 = id := by
          have h2 := List.find?_some hfind
          simpa using h2
        have hold := ha e he
        have hsubc : sub.content = RNode.pending e.1 := by
          have h1 := contentAt_eq s e.2.1 root sub e.2.2 hf hp
          rw [hold] at h1
          exact (Option.some.inj h1).symm
        refine ⟨?_, ?_, ?_, ?_⟩
        · -- (a)
          intro e2 he2
          have hef := List.mem_filter.mp he2
          obtain ⟨hemem, hkeep⟩ := hef
          have hne : e2.1 ≠ id := by simpa using hkeep
          have hold2 := ha e2 hemem
          by_cases hf2 : e2.2.1 = e.2.1
          · by_cases hlead : pathLeads e.2.2 e2.2.2
            · obtain ⟨r, hr⟩ := hlead
              cases r with
              | nil =>
                  rw [List.append_nil] at hr
                  exfalso
                  apply hne
                  rw [← heid]
                  have hold2b := hold2
                  rw [hf2, hr] at hold2b
                  rw [hold] at hold2b
                  have h3 := Option.some.inj hold2b
                  injection h3 with h4
                  exact h4.symm
              | cons c r2 =>
                  rw [hf2] at hold2 ⊢
                  rw [hr] at hold2 ⊢
                  rw [contentAt_set_append s _ e.2.1 root
                    (sub.withContent (RNode.withGeometry slot)) sub e.2.2 (c :: r2)
                    rfl hf hp]
                  rw [withContent_getNode_cons]
                  rw [contentAt_append s e.2.1 root sub e.2.2 (c :: r2) hf hp] at hold2
                  exact hold2
            · rw [hf2] at hold2 ⊢
              rw [contentAt_set_not_leads s _ e.2.1 root _ e.2.2 e2.2.2 rfl hf hlead]
              exact hold2
          · rw [contentAt_set_other s _ e.2.1 e2.2.1 _ rfl hf2]
            exact hold2
        · -- (b)
          intro f2 q id2 hq
          by_cases hf2 : f2 = e.2.1
          · subst hf2
            by_cases hlead : pathLeads e.2.2 q
            · obtain ⟨r, rfl⟩ := hlead
              rw [contentAt_set_append s _ e.2.1 root
                (sub.withContent (RNode.withGeometry slot)) sub e.2.2 r rfl hf hp] at hq
              cases r with
              | nil =>
                  rw [getNode_nil (sub.withContent (RNode.withGeometry slot))] at hq
                  rw [show Option.map QuadTree.content
                    (some (sub.withContent (RNode.withGeometry slot))) =
                    some ((sub.withContent (RNode.withGeometry slot)).content) from rfl,
                    withContent_content] at hq
                  simp at hq
              | cons c r2 =>
                  rw [withContent_getNode_cons] at hq
                  rw [← contentAt_append s e.2.1 root sub e.2.2 (c :: r2) hf hp] at hq
                  have hmem := hb e.2.1 (e.2.2 ++ c :: r2) id2 hq
                  apply List.mem_filter.mpr
                  refine ⟨hmem, ?_⟩
                  simp only [decide_eq_true_eq]
                  intro hid2
                  subst hid2
                  have heq : (id2, e.2.1, e.2.2 ++ c :: r2) = e :=
                    List.inj_on_of_nodup_map hc hmem he (by simp [heid])
                  have hq2 : e.2.2 ++ c :: r2 = e.2.2 := by
                    have := congrArg (fun x => x.2.2) heq
                    simp at this
                  have hlen := congrArg List.length hq2
                  simp at hlen
            · rw [contentAt_set_not_leads s _ e.2.1 root _ e.2.2 q rfl hf hlead] at hq
              have hmem := hb e.2.1 q id2 hq
              apply List.mem_filter.mpr
              refine ⟨hmem, ?_⟩
              simp only [decide_eq_true_eq]
              intro hid2
              subst hid2
              have heq : (id2, e.2.1, q) = e :=
                List.inj_on_of_nodup_map hc hmem he (by simp [heid])
              apply hlead
              refine ⟨[], ?_⟩
              have := congrArg (fun x => x.2.2) heq
              simp only at this
              rw [List.append_nil]
              exact this
          · rw [contentAt_set_other s _ e.2.1 f2 _ rfl hf2] at hq
            have hmem := hb f2 q id2 hq
            apply List.mem_filter.mpr
            refine ⟨hmem, ?_⟩
            simp only [decide_eq_true_eq]
            intro hid2
            subst hid2
            have heq : (id2, f2, q) = e :=
              List.inj_on_of_nodup_map hc hmem he (by simp [heid])
            apply hf2
            have := congrArg (fun x => x.2.1) heq
            simpa using this
        · -- (c)
          have hsub : ((s.pending.filter (fun e2 => e2.1 ≠ id)).map Prod.fst).Sublist
              (s.pending.map Prod.fst) :=
            (List.filter_sublist _).map _
          exact List.Nodup.sublist hsub hc
        · -- (d)
          intro f2 q id2 hq
          show id2 < s.nextId
          by_cases hf2 : f2 = e.2.1
          · subst hf2
            by_cases hlead : pathLeads e.2.2 q
            · obtain ⟨r, rfl⟩ := hlead
              rw [contentAt_set_append s _ e.2.1 root
                (sub.withContent (RNode.withGeometry slot)) sub e.2.2 r rfl hf hp] at hq
              cases r with
              | nil =>
                  rw [getNode_nil (sub.withContent (RNode.withGeometry slot))] at hq
                  rw [show Option.map QuadTree.content
                    (some (sub.withContent (RNode.withGeometry slot))) =
                    some ((sub.withContent (RNode.withGeometry slot)).content) from rfl,
                    withContent_content] at hq
                  simp at hq
              | cons c r2 =>
                  rw [withContent_getNode_cons] at hq
                  rw [← contentAt_append s e.2.1 root sub e.2.2 (c :: r2) hf hp] at hq
                  exact hd e.2.1 (e.2.2 ++ c :: r2) id2 hq
            · rw [contentAt_set_not_leads s _ e.2.1 root _ e.2.2 q rfl hf hlead] at hq
              exact hd e.2.1 q id2 hq
          · rw [contentAt_set_other s _ e.2.1 f2 _ rfl hf2] at hq
            exact hd f2 q id2 hq

theorem pendingInv_storePriority (s : RState) (id v : Nat)
    (h : PendingInv s) : PendingInv (storePriority s id v) := h


theorem initState_no_pending (slots : List Nat) (f : Nat) (p : List Child) (id : Nat) :
    contentAt (initState slots) f p ≠ some (RNode.pending id) := by
  intro h
  simp only [contentAt, initState] at h
  rw [List.get?_map] at h
  cases hm : slots.get? f with
  | none => rw [hm] at h; simp at h
  | some slot =>
      rw [hm] at h
      cases p with
      | nil => simp [getNode_nil, QuadTree.content] at h
      | cons a b => simp [QuadTree.getNode] at h

theorem pendingInv_init (slots : List Nat) : PendingInv (initState slots) := by
  refine ⟨?_, ?_, ?_, ?_⟩
  · intro e he
    simp [initState] at he
  · intro f p id h
    exact absurd h (initState_no_pending slots f p id)
  · simp [initState]
  · intro f p id h
    exact absurd h (initState_no_pending slots f p id)

theorem pendingInv_step (s s2 : RState) (hstep : RStep s s2)
    (h : PendingInv s) : PendingInv s2 := by
  cases hstep with
  | split f p lod => exact pendingInv_splitAt s f p lod h
  | merge f p => exact pendingInv_mergeAt s f p h
  | receive id slot => exact pendingInv_receiveAt s id slot h
  | store id v => exact pendingInv_storePriority s id v h

theorem pendingInv_reachable (s : RState) (h : Reachable s) : PendingInv s := by
  obtain ⟨slots, hst⟩ := h
  induction hst with
  | refl => exact pendingInv_init slots
  | tail hab hbc ih => exact pendingInv_step _ _ hbc ih

/-- C5: in every renderer state reachable by residency passes (splits via
`request_node`, merges of out-of-range nodes, `receive_all` drains and
priority stores) the pending-requests map and the live Pending quadtree
nodes are in bijection: every map entry points at a live Pending node
carrying the entry key as its request id, entries pointing at the same
node are equal (so distinct keys refer to distinct nodes), and every
live Pending node is registered under exactly one map entry. -/
theorem c5_pending_bijection (s : RState) (h : Reachable s) :
    (∀ e ∈ s.pending, contentAt s e.2.1 e.2.2 = some (RNode.pending e.1)) ∧
    (∀ e1 ∈ s.pending, ∀ e2 ∈ s.pending, e1.2 = e2.2 → e1 = e2) ∧
    (∀ f p id, contentAt s f p = some (RNode.pending id) →
      (id, f, p) ∈ s.pending ∧ ∀ e ∈ s.pending, e.1 = id → e = (id, f, p)) := by
  obtain ⟨ha, hb, hc, hd⟩ := pendingInv_reachable s h
  refine ⟨ha, ?_, ?_⟩
  · intro e1 he1 e2 he2 heq
    have h1 := ha e1 he1
    have h2 := ha e2 he2
    rw [heq] at h1
    have hkey : e1.1 = e2.1 := by
      have h3 := Option.some.inj (h1.symm.trans h2)
      injection h3
    exact List.inj_on_of_nodup_map hc he1 he2 hkey
  · intro f p id hcp
    refine ⟨hb f p id hcp, ?_⟩
    intro e he hekey
    exact List.inj_on_of_nodup_map hc he (hb f p id hcp) hekey

theorem c5_pending_bijection_witness :
    (∀ e ∈ (splitAt (initState [5]) 0 [] 0).pending,
      contentAt (splitAt (initState [5]) 0 [] 0) e.2.1 e.2.2 =
        some (RNode.pending e.1)) ∧
    (∀ e1 ∈ (splitAt (initState [5]) 0 [] 0).pending,
      ∀ e2 ∈ (splitAt (initState [5]) 0 [] 0).pending, e1.2 = e2.2 → e1 = e2) ∧
    (∀ f p id,
      contentAt (splitAt (initState [5]) 0 [] 0) f p = some (RNode.pending id) →
      (id, f, p) ∈ (splitAt (initState [5]) 0 [] 0).pending ∧
        ∀ e ∈ (splitAt (initState [5]) 0 [] 0).pending,
          e.1 = id → e = (id, f, p)) :=
  c5_pending_bijection (splitAt (initState [5]) 0 [] 0)
    ⟨[5], Relation.ReflTransGen.single (RStep.split (initState [5]) 0 [] 0)⟩

/-- C10: `merge` destroys only descendants.  After `mergeAt` at an
existing address, the node keeps its own content and loses its children
(every strictly deeper address is gone); the released slots are exactly
the backing slots of the WithGeometry proper descendants and the
cancelled ids are exactly the request ids of the Pending proper
descendants; every cancelled id has its priority set to 0 and its
pending-map entry removed while all other priorities and entries are
untouched; and the content at every other face and at every address not
below the merged node is unchanged. -/
theorem c10_merge_frame_effects (s : RState) (f : Nat) (p : List Child)
    (root sub : QuadTree RNode)
    (hf : s.faces.get? f = some root) (hp : root.getNode p = some sub) :
    contentAt (mergeAt s f p) f p = some sub.content ∧
    (∀ r, r ≠ [] → contentAt (mergeAt s f p) f (p ++ r) = none) ∧
    (∀ slot, slot ∈ (mergeNode sub).2.1 ↔
      ∃ q, q ≠ [] ∧ contentAt s f (p ++ q) = some (RNode.withGeometry slot)) ∧
    (∀ id, id ∈ (mergeNode sub).2.2 ↔
      ∃ q, q ≠ [] ∧ contentAt s f (p ++ q) = some (RNode.pending id)) ∧
    (∀ id, id ∈ (mergeNode sub).2.2 → (mergeAt s f p).priorities id = 0) ∧
    (∀ id, id ∉ (mergeNode sub).2.2 →
      (mergeAt s f p).priorities id = s.priorities id) ∧
    (∀ e, e ∈ (mergeAt s f p).pending ↔
      e ∈ s.pending ∧ e.1 ∉ (mergeNode sub).2.2) ∧
    (∀ f2 q, f2 ≠ f → contentAt (mergeAt s f p) f2 q = contentAt s f2 q) ∧
    (∀ q, ¬ pathLeads p q → contentAt (mergeAt s f p) f q = contentAt s f q) := by
  unfold mergeAt
  split
  · rename_i hnone
    rw [hf] at hnone
    exact absurd hnone (by simp)
  · rename_i root2 hf2
    rw [hf] at hf2
    have hroot : root = root2 := Option.some.inj hf2
    subst hroot
    split
    · rename_i hnone
      rw [hp] at hnone
      exact absurd hnone (by simp)
    · rename_i sub2 hp2
      rw [hp] at hp2
      have hsub : sub = sub2 := Option.some.inj hp2
      subst hsub
      refine ⟨?_, ?_, ?_, ?_, ?_, ?_, ?_, ?_, ?_⟩
      · rw [contentAt_set_self s _ f root (mergeNode sub).1 sub p rfl hf hp,
          mergeNode_tree]
        rfl
      · intro r hr
        rw [contentAt_set_append s _ f root (mergeNode sub).1 sub p r rfl hf hp,
          mergeNode_tree]
        cases r with
        | nil => exact absurd rfl hr
        | cons c r2 => simp [QuadTree.getNode]
      · intro slot
        rw [mergeNode_released_iff]
        constructor
        · rintro ⟨q, hq, hcont⟩
          refine ⟨q, hq, ?_⟩
          rw [contentAt_append s f root sub p q hf hp]
          exact hcont
        · rintro ⟨q, hq, hcont⟩
          rw [contentAt_append s f root sub p q hf hp] at hcont
          exact ⟨q, hq, hcont⟩
      · intro id
        rw [mergeNode_cancelled_iff]
        constructor
        · rintro ⟨q, hq, hcont⟩
          refine ⟨q, hq, ?_⟩
          rw [contentAt_append s f root sub p q hf hp]
          exact hcont
        · rintro ⟨q, hq, hcont⟩
          rw [contentAt_append s f root sub p q hf hp] at hcont
          exact ⟨q, hq, hcont⟩
      · intro id hid
        simp [hid]
      · intro id hid
        simp [hid]
      · intro e
        simp [List.mem_filter]
      · intro f2 q hne
        exact contentAt_set_other s _ f f2 _ rfl hne q
      · intro q hq
        exact contentAt_set_not_leads s _ f root (mergeNode sub).1 p q rfl hf hq

theorem c10_merge_frame_effects_witness :
    ((splitAt (initState [5]) 0 [] 0).faces.get? 0 =
      some (QuadTree.branch (RNode.withGeometry 5)
        (QuadTree.leaf (RNode.pending 0)) (QuadTree.leaf (RNode.pending 1))
        (QuadTree.leaf (RNode.pending 2)) (QuadTree.leaf (RNode.pending 3)))) ∧
    ((QuadTree.branch (RNode.withGeometry 5)
        (QuadTree.leaf (RNode.pending 0)) (QuadTree.leaf (RNode.pending 1))
        (QuadTree.leaf (RNode.pending 2))
        (QuadTree.leaf (RNode.pending 3))).getNode [] =
      some (QuadTree.branch (RNode.withGeometry 5)
        (QuadTree.leaf (RNode.pending 0)) (QuadTree.leaf (RNode.pending 1))
        (QuadTree.leaf (RNode.pending 2)) (QuadTree.leaf (RNode.pending 3)))) ∧
    contentAt (mergeAt (splitAt (initState [5]) 0 [] 0) 0 []) 0 [] =
      some (RNode.withGeometry 5) ∧
    (∀ r, r ≠ [] →
      contentAt (mergeAt (splitAt (initState [5]) 0 [] 0) 0 []) 0 ([] ++ r) =
        none) ∧
    (∀ id, id ∈ (mergeNode (QuadTree.branch (RNode.withGeometry 5)
        (QuadTree.leaf (RNode.pending 0)) (QuadTree.leaf (RNode.pending 1))
        (QuadTree.leaf (RNode.pending 2))
        (QuadTree.leaf (RNode.pending 3)))).2.2 →
      (mergeAt (splitAt (initState [5]) 0 [] 0) 0 []).priorities id = 0) ∧
    (∀ e, e ∈ (mergeAt (splitAt (initState [5]) 0 [] 0) 0 []).pending ↔
      e ∈ (splitAt (initState [5]) 0 [] 0).pending ∧
        e.1 ∉ (mergeNode (QuadTree.branch (RNode.withGeometry 5)
          (QuadTree.leaf (RNode.pending 0)) (QuadTree.leaf (RNode.pending 1))
          (QuadTree.leaf (RNode.pending 2))
          (QuadTree.leaf (RNode.pending 3)))).2.2) := by
  have h := c10_merge_frame_effects (splitAt (initState [5]) 0 [] 0) 0 []
    (QuadTree.branch (RNode.withGeometry 5)
      (QuadTree.leaf (RNode.pending 0)) (QuadTree.leaf (RNode.pending 1))
      (QuadTree.leaf (RNode.pending 2)) (QuadTree.leaf (RNode.pending 3)))
    (QuadTree.branch (RNode.withGeometry 5)
      (QuadTree.leaf (RNode.pending 0)) (QuadTree.leaf (RNode.pending 1))
      (QuadTree.leaf (RNode.pending 2)) (QuadTree.leaf (RNode.pending 3)))
    rfl rfl
  exact ⟨rfl, rfl, h.1, h.2.1, h.2.2.2.2.1, h.2.2.2.2.2.2.1⟩

end Omniverse
